import Mathlib

/-!
Verification development for the libre-office-mcp helper process
(src/libre-writer/helper.py): a TCP command executor that receives one JSON
command per connection, dispatches on its `action` field, runs a document
operation against an external LibreOffice host, and answers with a
`status`/`message` envelope.

Modelling conventions:
* strings are `List Char` (`Str`); request bodies are modelled at the
  character level (the helper decodes the received bytes as UTF-8 before
  parsing; the model identifies bytes with characters, i.e. ASCII payloads);
* the external LibreOffice host owns all document state; the model carries
  that state explicitly (`Host`) and bundles the host behaviours the helper
  merely observes (text actually stored by `setString`, template lookup on
  the host filesystem, copy errors raised while cloning shapes) in a
  `HostEnv` parameter;
* Python exceptions (`HelperError`) are `Except.error`; a handler only
  writes the file back at its `doc.store()` / `storeToURL` call, matching
  the fact that `managed_document` closes without saving on error paths;
* `json.loads` / `json.dumps` of the Python standard library are modelled
  by an executable JSON parser and serializer over the JSON fragment the
  bridge exchanges (null, bool, int, string, array, object).
-/

abbrev Str := List Char

def toL (s : String) : Str := s.toList

/-! ### Decimal rendering of numbers (used in f-string style messages) -/

def digitChar : Nat → Char
  | 0 => '0'
  | 1 => '1'
  | 2 => '2'
  | 3 => '3'
  | 4 => '4'
  | 5 => '5'
  | 6 => '6'
  | 7 => '7'
  | 8 => '8'
  | _ => '9'

def natToCharsAux : Nat → Nat → Str → Str
  | 0, _, acc => acc
  | fuel + 1, n, acc =>
    if n = 0 then acc else natToCharsAux fuel (n / 10) (digitChar (n % 10) :: acc)

def natToChars (n : Nat) : Str :=
  if n = 0 then ['0'] else natToCharsAux (n + 1) n []

def intToChars (i : Int) : Str :=
  if i < 0 then '-' :: natToChars (-i).toNat else natToChars i.toNat

/-! ### JSON values

The JSON fragment exchanged between the MCP front end and the helper:
numbers are integers (the bridge sends indices, sizes and flags; float
payloads do not occur in any modelled command).  Arrays and objects use
bespoke mutual list types so that structural mutual recursion and induction
are available. -/

mutual
inductive Json where
  | null : Json
  | bool : Bool → Json
  | num : Int → Json
  | str : Str → Json
  | arr : JsonList → Json
  | obj : JsonMembers → Json
inductive JsonList where
  | nil : JsonList
  | cons : Json → JsonList → JsonList
inductive JsonMembers where
  | nil : JsonMembers
  | cons : Str → Json → JsonMembers → JsonMembers
end

/-! ### Serializer, mirroring `json.dumps` with default separators -/

def hexChar : Nat → Char
  | 0 => '0'
  | 1 => '1'
  | 2 => '2'
  | 3 => '3'
  | 4 => '4'
  | 5 => '5'
  | 6 => '6'
  | 7 => '7'
  | 8 => '8'
  | 9 => '9'
  | 10 => 'a'
  | 11 => 'b'
  | 12 => 'c'
  | 13 => 'd'
  | 14 => 'e'
  | _ => 'f'

def escChar (c : Char) : Str :=
  if c = '"' then ['\\', '"']
  else if c = '\\' then ['\\', '\\']
  else if c = '\n' then ['\\', 'n']
  else if c = '\t' then ['\\', 't']
  else if c = '\r' then ['\\', 'r']
  else if c.toNat < 32 then
    ['\\', 'u', '0', '0', hexChar (c.toNat / 16), hexChar (c.toNat % 16)]
  else [c]

def escStr : Str → Str
  | [] => []
  | c :: cs => escChar c ++ escStr cs

mutual
def serJson : Json → Str
  | .null => toL "null"
  | .bool true => toL "true"
  | .bool false => toL "false"
  | .num i => intToChars i
  | .str s => '"' :: (escStr s ++ ['"'])
  | .arr l => '[' :: (serArr l ++ [']'])
  | .obj m => '\x7b' :: (serObj m ++ ['\x7d'])
def serArr : JsonList → Str
  | .nil => []
  | .cons x .nil => serJson x
  | .cons x (.cons y tl) => serJson x ++ (',' :: ' ' :: serArr (.cons y tl))
def serObj : JsonMembers → Str
  | .nil => []
  | .cons k v .nil => '"' :: (escStr k ++ ('"' :: ':' :: ' ' :: serJson v))
  | .cons k v (.cons k2 v2 tl) =>
    ('"' :: (escStr k ++ ('"' :: ':' :: ' ' :: serJson v)))
      ++ (',' :: ' ' :: serObj (.cons k2 v2 tl))
end

/-! ### Structural scanner

A character-by-character scan tracking the brace nesting depth outside JSON
string literals.  It underlies the truncation argument: a successful parse
consumes a depth-balanced chunk, while every strict prefix of a serialized
object stays at positive depth. -/

structure ScanSt where
  depth : Int
  inStr : Bool
  esc : Bool
deriving DecidableEq

def scanStep (st : ScanSt) (c : Char) : ScanSt :=
  if st.inStr then
    if st.esc then { st with esc := false }
    else if c = '\\' then { st with esc := true }
    else if c = '"' then { st with inStr := false }
    else st
  else if c = '\x7b' then { st with depth := st.depth + 1 }
  else if c = '\x7d' then { st with depth := st.depth - 1 }
  else if c = '"' then { st with inStr := true, esc := false }
  else st

def scan (st : ScanSt) (l : Str) : ScanSt := List.foldl scanStep st l

/-- Predicate on scans: every state visited while consuming the list (the
state before each character, i.e. the scan of every strict prefix of the
list when the list is consumed from `st`) satisfies `P`. -/
def Within (P : ScanSt → Prop) : ScanSt → Str → Prop
  | _, [] => True
  | st, c :: cs => P st ∧ Within P (scanStep st c) cs

theorem scan_nil (st : ScanSt) : scan st [] = st := rfl

theorem scan_cons (st : ScanSt) (c : Char) (l : Str) :
    scan st (c :: l) = scan (scanStep st c) l := rfl

theorem scan_append (st : ScanSt) (a b : Str) :
    scan st (a ++ b) = scan (scan st a) b :=
  List.foldl_append _ _ _ _

theorem within_append {P : ScanSt → Prop} {st : ScanSt} {a b : Str}
    (ha : Within P st a) (hb : Within P (scan st a) b) :
    Within P st (a ++ b) := by
  induction a generalizing st with
  | nil => simpa using hb
  | cons c cs ih =>
    refine ⟨ha.1, ih ha.2 ?_⟩
    simpa [scan_cons] using hb

theorem within_mono {P Q : ScanSt → Prop} (h : ∀ s, P s → Q s) :
    ∀ {st : ScanSt} {l : Str}, Within P st l → Within Q st l := by
  intro st l
  induction l generalizing st with
  | nil => intro _; trivial
  | cons c cs ih => intro hw; exact ⟨h _ hw.1, ih hw.2⟩

theorem within_split {P : ScanSt → Prop} :
    ∀ {a : Str} {st : ScanSt} {b : Str}, Within P st (a ++ b) → b ≠ [] →
      P (scan st a) := by
  intro a
  induction a with
  | nil =>
    intro st b hw hb
    cases b with
    | nil => exact absurd rfl hb
    | cons c cs => exact hw.1
  | cons c cs ih =>
    intro st b hw hb
    exact ih hw.2 hb

/-! ### Characters that do not affect the scan state outside strings -/

abbrev NotSpecial (c : Char) : Prop := c ≠ '\x7b' ∧ c ≠ '\x7d' ∧ c ≠ '"'

theorem scanStep_neutral {st : ScanSt} {c : Char} (hs : st.inStr = false)
    (hc : NotSpecial c) : scanStep st c = st := by
  obtain ⟨h1, h2, h3⟩ := hc
  simp [scanStep, hs, h1, h2, h3]

theorem scan_neutral {l : Str} {st : ScanSt} (hs : st.inStr = false)
    (hl : ∀ c ∈ l, NotSpecial c) : scan st l = st := by
  induction l with
  | nil => rfl
  | cons c cs ih =>
    rw [scan_cons, scanStep_neutral hs (hl c (by simp))]
    exact ih fun x hx => hl x (by simp [hx])

theorem within_neutral {P : ScanSt → Prop} {l : Str} {st : ScanSt}
    (hs : st.inStr = false) (hl : ∀ c ∈ l, NotSpecial c) (hP : P st) :
    Within P st l := by
  induction l with
  | nil => trivial
  | cons c cs ih =>
    rw [Within]
    rw [scanStep_neutral hs (hl c (by simp))]
    exact ⟨hP, ih fun x hx => hl x (by simp [hx])⟩

theorem digitChar_notSpecial (n : Nat) : NotSpecial (digitChar n) := by
  rcases n with _ | _ | _ | _ | _ | _ | _ | _ | _ | n <;>
    first
    | decide
    | exact (by decide : NotSpecial '9')

theorem hexChar_safe (n : Nat) : hexChar n ≠ '"' ∧ hexChar n ≠ '\\' := by
  rcases n with _ | _ | _ | _ | _ | _ | _ | _ | _ | _ | _ | _ | _ | _ | _ | _ | n <;>
    first
    | decide
    | exact (by decide : ('f' : Char) ≠ '"' ∧ ('f' : Char) ≠ '\\')

theorem natToCharsAux_notSpecial :
    ∀ (fuel n : Nat) (acc : Str), (∀ c ∈ acc, NotSpecial c) →
      ∀ c ∈ natToCharsAux fuel n acc, NotSpecial c := by
  intro fuel
  induction fuel with
  | zero => intro n acc hacc c hc; exact hacc c hc
  | succ f ih =>
    intro n acc hacc c hc
    rw [natToCharsAux] at hc
    split at hc
    · exact hacc c hc
    · refine ih _ _ ?_ c hc
      intro x hx
      rcases List.mem_cons.mp hx with h | h
      · subst h; exact digitChar_notSpecial _
      · exact hacc x h

theorem natToChars_notSpecial (n : Nat) : ∀ c ∈ natToChars n, NotSpecial c := by
  intro c hc
  rw [natToChars] at hc
  split at hc
  · simp at hc; subst hc; decide
  · exact natToCharsAux_notSpecial _ _ _ (by simp) c hc

theorem intToChars_notSpecial (i : Int) : ∀ c ∈ intToChars i, NotSpecial c := by
  intro c hc
  rw [intToChars] at hc
  split at hc
  · rcases List.mem_cons.mp hc with h | h
    · subst h; decide
    · exact natToChars_notSpecial _ c h
  · exact natToChars_notSpecial _ c hc

/-! ### Scanning escaped string bodies -/

theorem scanStep_escaped (d : Int) (c : Char) :
    scanStep ⟨d, true, true⟩ c = ⟨d, true, false⟩ := by
  simp [scanStep]

theorem scanStep_backslashBody (d : Int) :
    scanStep ⟨d, true, false⟩ '\\' = ⟨d, true, true⟩ := by
  simp [scanStep]

theorem scanStep_inBody {c : Char} (d : Int) (h1 : c ≠ '\\') (h2 : c ≠ '"') :
    scanStep ⟨d, true, false⟩ c = ⟨d, true, false⟩ := by
  simp [scanStep, h1, h2]

theorem escChar_scan (c : Char) (d : Int) :
    scan ⟨d, true, false⟩ (escChar c) = ⟨d, true, false⟩ ∧
      Within (fun s => s.depth = d) ⟨d, true, false⟩ (escChar c) := by
  rw [escChar]
  split_ifs with h1 h2 h3 h4 h5 h6
  · constructor
    · simp [scan, scanStep]
    · simp [Within, scanStep]
  · constructor
    · simp [scan, scanStep]
    · simp [Within, scanStep]
  · constructor
    · simp [scan, scanStep]
    · simp [Within, scanStep]
  · constructor
    · simp [scan, scanStep]
    · simp [Within, scanStep]
  · constructor
    · simp [scan, scanStep]
    · simp [Within, scanStep]
  · have hh1 := hexChar_safe (c.toNat / 16)
    have hh2 := hexChar_safe (c.toNat % 16)
    constructor
    · simp only [scan_cons, scanStep_escaped, scan_nil]
      rw [scanStep_backslashBody d]
      rw [scanStep_escaped]
      rw [scanStep_inBody d (by decide) (by decide)]
      rw [scanStep_inBody d (by decide) (by decide)]
      rw [scanStep_inBody d hh1.2 hh1.1]
      rw [scanStep_inBody d hh2.2 hh2.1]
    · rw [Within]
      refine ⟨rfl, ?_⟩
      rw [scanStep_backslashBody d, Within]
      refine ⟨rfl, ?_⟩
      rw [scanStep_escaped, Within]
      refine ⟨rfl, ?_⟩
      rw [scanStep_inBody d (by decide) (by decide), Within]
      refine ⟨rfl, ?_⟩
      rw [scanStep_inBody d (by decide) (by decide), Within]
      refine ⟨rfl, ?_⟩
      rw [scanStep_inBody d hh1.2 hh1.1, Within]
      refine ⟨rfl, ?_⟩
      rw [scanStep_inBody d hh2.2 hh2.1, Within]
      trivial
  · constructor
    · rw [scan_cons, scanStep_inBody d h2 h1, scan_nil]
    · rw [Within, scanStep_inBody d h2 h1]
      exact ⟨rfl, trivial⟩

theorem escStr_scan (s : Str) (d : Int) :
    scan ⟨d, true, false⟩ (escStr s) = ⟨d, true, false⟩ ∧
      Within (fun st => st.depth = d) ⟨d, true, false⟩ (escStr s) := by
  induction s with
  | nil => exact ⟨rfl, trivial⟩
  | cons c cs ih =>
    rw [escStr]
    obtain ⟨e1, e2⟩ := escChar_scan c d
    constructor
    · rw [scan_append, e1, ih.1]
    · exact within_append e2 (by rw [e1]; exact ih.2)

/-! ### Scan behaviour of serialized JSON values

Scanning a serialized value from a clean state returns to that state, and
the depth never dips below the starting depth at any intermediate point. -/

def SerScan (x : Str) : Prop :=
  ∀ d : Int, scan ⟨d, false, false⟩ x = ⟨d, false, false⟩ ∧
    Within (fun s => d ≤ s.depth) ⟨d, false, false⟩ x

theorem scanStep_quoteOpen (d : Int) :
    scanStep ⟨d, false, false⟩ '"' = ⟨d, true, false⟩ := by
  simp [scanStep]

theorem scanStep_quoteClose (d : Int) :
    scanStep ⟨d, true, false⟩ '"' = ⟨d, false, false⟩ := by
  simp [scanStep]

theorem scanStep_open (d : Int) :
    scanStep ⟨d, false, false⟩ '\x7b' = ⟨d + 1, false, false⟩ := by
  simp [scanStep]

theorem scanStep_close (d : Int) :
    scanStep ⟨d, false, false⟩ '\x7d' = ⟨d - 1, false, false⟩ := by
  simp [scanStep]

theorem serScan_nil : SerScan [] := fun _ => ⟨rfl, trivial⟩

theorem serScan_neutral {x : Str} (h : ∀ c ∈ x, NotSpecial c) : SerScan x :=
  fun _ => ⟨scan_neutral rfl h, within_neutral rfl h le_rfl⟩

theorem serScan_append {a b : Str} (ha : SerScan a) (hb : SerScan b) :
    SerScan (a ++ b) := by
  intro d
  constructor
  · rw [scan_append, (ha d).1, (hb d).1]
  · exact within_append (ha d).2 (by rw [(ha d).1]; exact (hb d).2)

theorem serScan_cons_neutral {c : Char} (hc : NotSpecial c) {x : Str}
    (h : SerScan x) : SerScan (c :: x) := by
  intro d
  constructor
  · rw [scan_cons, scanStep_neutral rfl hc, (h d).1]
  · rw [Within, scanStep_neutral rfl hc]
    exact ⟨le_rfl, (h d).2⟩

theorem serScan_quoted_then (s : Str) {rest : Str} (hrest : SerScan rest) :
    SerScan ('"' :: (escStr s ++ ('"' :: rest))) := by
  intro d
  obtain ⟨e1, e2⟩ := escStr_scan s d
  constructor
  · rw [scan_cons, scanStep_quoteOpen, scan_append, e1, scan_cons,
      scanStep_quoteClose, (hrest d).1]
  · rw [Within, scanStep_quoteOpen]
    refine ⟨le_rfl, within_append (within_mono (fun s hs => le_of_eq hs.symm) e2) ?_⟩
    rw [e1, Within, scanStep_quoteClose]
    exact ⟨le_rfl, (hrest d).2⟩

theorem serScan_braced {x : Str}
    (hx : SerScan x) : SerScan ('\x7b' :: (x ++ ['\x7d'])) := by
  intro d
  constructor
  · rw [scan_cons, scanStep_open, scan_append, (hx (d + 1)).1, scan_cons,
      scanStep_close, scan_nil]
    norm_num
  · rw [Within, scanStep_open]
    refine ⟨le_rfl, within_append (within_mono (fun s hs => ?_) (hx (d + 1)).2) ?_⟩
    · omega
    · rw [(hx (d + 1)).1, Within, scanStep_close]
      exact ⟨show d ≤ d + 1 by omega, trivial⟩

mutual
theorem serJson_scan : ∀ (j : Json), SerScan (serJson j)
  | .null => by simp only [serJson]; exact serScan_neutral (by decide)
  | .bool true => by simp only [serJson]; exact serScan_neutral (by decide)
  | .bool false => by simp only [serJson]; exact serScan_neutral (by decide)
  | .num i => by simp only [serJson]; exact serScan_neutral (intToChars_notSpecial i)
  | .str s => by
    simp only [serJson]
    exact serScan_quoted_then s serScan_nil
  | .arr l => by
    simp only [serJson]
    exact serScan_cons_neutral (by decide)
      (serScan_append (serArr_scan l) (serScan_neutral (by decide)))
  | .obj m => by
    simp only [serJson]
    exact serScan_braced (serObj_scan m)
theorem serArr_scan : ∀ (l : JsonList), SerScan (serArr l)
  | .nil => by simp only [serArr]; exact serScan_nil
  | .cons x .nil => by simp only [serArr]; exact serJson_scan x
  | .cons x (.cons y tl) => by
    simp only [serArr]
    exact serScan_append (serJson_scan x)
      (serScan_cons_neutral (by decide)
        (serScan_cons_neutral (by decide) (serArr_scan (.cons y tl))))
theorem serObj_scan : ∀ (m : JsonMembers), SerScan (serObj m)
  | .nil => by simp only [serObj]; exact serScan_nil
  | .cons k v .nil => by
    simp only [serObj]
    exact serScan_quoted_then k
      (serScan_cons_neutral (by decide)
        (serScan_cons_neutral (by decide) (serJson_scan v)))
  | .cons k v (.cons k2 v2 tl) => by
    simp only [serObj]
    exact serScan_append
      (serScan_quoted_then k
        (serScan_cons_neutral (by decide)
          (serScan_cons_neutral (by decide) (serJson_scan v))))
      (serScan_cons_neutral (by decide)
        (serScan_cons_neutral (by decide) (serObj_scan (.cons k2 v2 tl))))
end

/-- Scanning any strict nonempty prefix of a serialized JSON object from the
initial clean state leaves the brace depth at one or more. -/
theorem serObj_strictPref_depth (m : JsonMembers) (p q : Str)
    (hsplit : serJson (.obj m) = p ++ q) (hq : q ≠ []) (hp : p ≠ []) :
    1 ≤ (scan ⟨0, false, false⟩ p).depth := by
  have hser : serJson (.obj m) = '\x7b' :: (serObj m ++ ['\x7d']) := by
    simp only [serJson]
  cases p with
  | nil => exact absurd rfl hp
  | cons c p2 =>
    rw [hser] at hsplit
    have hc : c = '\x7b' := (List.cons.injEq _ _ _ _ ▸ hsplit).1.symm
    have hp2 : serObj m ++ ['\x7d'] = p2 ++ q := (List.cons.injEq _ _ _ _ ▸ hsplit).2
    subst hc
    rw [scan_cons, scanStep_open]
    have hwithin : Within (fun s => 1 ≤ s.depth) ⟨0 + 1, false, false⟩
        (serObj m ++ ['\x7d']) := by
      refine within_append
        (within_mono (fun s hs => by simpa using hs) (serObj_scan m (0 + 1)).2) ?_
      rw [(serObj_scan m (0 + 1)).1, Within, scanStep_close]
      exact ⟨by norm_num, trivial⟩
    rw [hp2] at hwithin
    exact within_split hwithin hq

/-! ### JSON parser, mirroring `json.loads`

An executable recursive-descent parser over the same JSON fragment.  Fuel
makes every recursion structural, so concrete inputs evaluate inside the
kernel.  The parser is lenient where leniency is conservative for the
truncation argument (it accepts a superset of the texts `json.loads`
accepts, e.g. it does not insist on four hex digits after a `\u` escape):
the claim proved below is that the parser rejects truncated objects, which
then holds a fortiori for any parser accepting a subset. -/

def isWsC (c : Char) : Bool :=
  c = ' ' || c = '\t' || c = '\n' || c = '\r'

def skipWs : Str → Str
  | [] => []
  | c :: cs => if isWsC c then skipWs cs else c :: cs

def expectLit : Str → Str → Option Str
  | [], s => some s
  | p :: ps, c :: cs => if c = p then expectLit ps cs else none
  | _ :: _, [] => none

def isDigitC (c : Char) : Bool :=
  c = '0' || c = '1' || c = '2' || c = '3' || c = '4' ||
    c = '5' || c = '6' || c = '7' || c = '8' || c = '9'

def digitVal (c : Char) : Nat :=
  if c = '0' then 0 else if c = '1' then 1 else if c = '2' then 2
  else if c = '3' then 3 else if c = '4' then 4 else if c = '5' then 5
  else if c = '6' then 6 else if c = '7' then 7 else if c = '8' then 8
  else 9

def digitsSpan : Str → Str × Str
  | [] => ([], [])
  | c :: cs =>
    if isDigitC c then
      let p := digitsSpan cs
      (c :: p.1, p.2)
    else ([], c :: cs)

def digitsToNat (ds : Str) : Nat := ds.foldl (fun n c => n * 10 + digitVal c) 0

def parseNum : Str → Option (Json × Str)
  | [] => none
  | c :: cs =>
    if c = '-' then
      if (digitsSpan cs).1 = [] then none
      else some (.num (-(Int.ofNat (digitsToNat (digitsSpan cs).1))), (digitsSpan cs).2)
    else
      if (digitsSpan (c :: cs)).1 = [] then none
      else some (.num (Int.ofNat (digitsToNat (digitsSpan (c :: cs)).1)),
        (digitsSpan (c :: cs)).2)

def unescape (c : Char) : Char :=
  if c = 'n' then '\n' else if c = 't' then '\t' else if c = 'r' then '\r'
  else if c = 'b' then '\x08' else if c = 'f' then '\x0c' else c

/-- String-body parser, entered after the opening quote; returns the decoded
content and the input remaining after the closing quote. -/
def parseStrBody : Nat → Str → Option (Str × Str)
  | 0, _ => none
  | _ + 1, [] => none
  | fuel + 1, c :: cs =>
    if c = '"' then some ([], cs)
    else if c = '\\' then
      match cs with
      | [] => none
      | e :: cs2 =>
        match parseStrBody fuel cs2 with
        | some (body, r) => some (unescape e :: body, r)
        | none => none
    else
      match parseStrBody fuel cs with
      | some (body, r) => some (c :: body, r)
      | none => none

inductive PMode where
  | val : PMode
  | arrRest : PMode
  | objRest : PMode

inductive PRes where
  | v : Json → PRes
  | elems : JsonList → PRes
  | members : JsonMembers → PRes

/-- Combined value/array-tail/object-tail parser.  Mode `val` parses one JSON
value.  Mode `arrRest` parses `value (, value)* ]` after a `[` whose body is
known to be nonempty.  Mode `objRest` parses `"key": value (, ...)*` up to
and including the closing brace. -/
def parseAny : Nat → PMode → Str → Option (PRes × Str)
  | 0, _, _ => none
  | fuel + 1, .val, s =>
    match s with
    | [] => none
    | 'n' :: cs =>
      match expectLit (toL "ull") cs with
      | some r => some (.v .null, r)
      | none => none
    | 't' :: cs =>
      match expectLit (toL "rue") cs with
      | some r => some (.v (.bool true), r)
      | none => none
    | 'f' :: cs =>
      match expectLit (toL "alse") cs with
      | some r => some (.v (.bool false), r)
      | none => none
    | '"' :: cs =>
      match parseStrBody (fuel + 1) cs with
      | some (body, r) => some (.v (.str body), r)
      | none => none
    | '[' :: cs =>
      (match skipWs cs with
       | ']' :: r => some (.v (.arr .nil), r)
       | s2 =>
         match parseAny fuel .arrRest s2 with
         | some (.elems l, r) => some (.v (.arr l), r)
         | _ => none)
    | '\x7b' :: cs =>
      (match skipWs cs with
       | '\x7d' :: r => some (.v (.obj .nil), r)
       | s2 =>
         match parseAny fuel .objRest s2 with
         | some (.members m, r) => some (.v (.obj m), r)
         | _ => none)
    | c :: cs =>
      if c = '-' || isDigitC c then
        match parseNum (c :: cs) with
        | some (j, r) => some (.v j, r)
        | none => none
      else none
  | fuel + 1, .arrRest, s =>
    match parseAny fuel .val (skipWs s) with
    | some (.v x, r) =>
      (match skipWs r with
       | ']' :: r2 => some (.elems (.cons x .nil), r2)
       | ',' :: r2 =>
         match parseAny fuel .arrRest r2 with
         | some (.elems tl, r3) => some (.elems (.cons x tl), r3)
         | _ => none
       | _ => none)
    | _ => none
  | fuel + 1, .objRest, s =>
    match skipWs s with
    | '"' :: cs =>
      (match parseStrBody (fuel + 1) cs with
       | some (k, r) =>
         (match skipWs r with
          | ':' :: r2 =>
            (match parseAny fuel .val (skipWs r2) with
             | some (.v x, r3) =>
               (match skipWs r3 with
                | '\x7d' :: r4 => some (.members (.cons k x .nil), r4)
                | ',' :: r4 =>
                  match parseAny fuel .objRest r4 with
                  | some (.members tl, r5) => some (.members (.cons k x tl), r5)
                  | _ => none
                | _ => none)
             | _ => none)
          | _ => none)
       | none => none)
    | _ => none

/-- Model of `json.loads`: parse one JSON value, allowing surrounding
whitespace; any other leftover input is an error. -/
def json_loads (s : Str) : Option Json :=
  match parseAny (4 * s.length + 16) .val (skipWs s) with
  | some (.v j, r) => if skipWs r = [] then some j else none
  | _ => none

/-! ### Scan behaviour of successfully parsed input

Every chunk the parser consumes is depth-balanced: a value chunk returns the
scanner to its starting clean state, an object-tail chunk (which consumes
the closing brace of an already-opened object) lowers the depth by one. -/

def CleanC (c : Str) : Prop :=
  ∀ d : Int, scan ⟨d, false, false⟩ c = ⟨d, false, false⟩

def DropC (c : Str) : Prop :=
  ∀ d : Int, scan ⟨d, false, false⟩ c = ⟨d - 1, false, false⟩

def StrC (c : Str) : Prop :=
  ∀ d : Int, scan ⟨d, true, false⟩ c = ⟨d, false, false⟩

def ChunkSpec : PMode → Str → Prop
  | .val => CleanC
  | .arrRest => CleanC
  | .objRest => DropC

theorem cleanC_nil : CleanC [] := fun _ => rfl

theorem cleanC_of_notSpecial {c : Str} (h : ∀ x ∈ c, NotSpecial x) : CleanC c :=
  fun _ => scan_neutral rfl h

theorem cleanC_append {a b : Str} (ha : CleanC a) (hb : CleanC b) :
    CleanC (a ++ b) := by
  intro d
  rw [scan_append, ha d, hb d]

theorem cleanC_cons_neutral {c : Char} (hc : NotSpecial c) {x : Str}
    (hx : CleanC x) : CleanC (c :: x) := by
  intro d
  rw [scan_cons, scanStep_neutral rfl hc, hx d]

theorem dropC_append_clean {a b : Str} (ha : CleanC a) (hb : DropC b) :
    DropC (a ++ b) := by
  intro d
  rw [scan_append, ha d, hb d]

theorem dropC_cons_neutral {c : Char} (hc : NotSpecial c) {x : Str}
    (hx : DropC x) : DropC (c :: x) := by
  intro d
  rw [scan_cons, scanStep_neutral rfl hc, hx d]

theorem dropC_clean_close {a : Str} (ha : CleanC a) :
    DropC (a ++ ['\x7d']) := by
  intro d
  rw [scan_append, ha d, scan_cons, scanStep_close, scan_nil]

theorem cleanC_quote_str {x : Str} (hx : StrC x) : CleanC ('"' :: x) := by
  intro d
  rw [scan_cons, scanStep_quoteOpen, hx d]

theorem cleanC_open_drop {x : Str} (hx : DropC x) : CleanC ('\x7b' :: x) := by
  intro d
  rw [scan_cons, scanStep_open, hx (d + 1)]
  norm_num


theorem isWsC_notSpecial {c : Char} (h : isWsC c = true) : NotSpecial c := by
  have hc : c = ' ' ∨ c = '\t' ∨ c = '\n' ∨ c = '\r' := by
    simpa [isWsC, or_assoc] using h
  rcases hc with h | h | h | h <;> (subst h; decide)

theorem isDigitC_notSpecial {c : Char} (h : isDigitC c = true) : NotSpecial c := by
  have hc : c = '0' ∨ c = '1' ∨ c = '2' ∨ c = '3' ∨ c = '4' ∨ c = '5' ∨
      c = '6' ∨ c = '7' ∨ c = '8' ∨ c = '9' := by
    simpa [isDigitC, or_assoc] using h
  rcases hc with h | h | h | h | h | h | h | h | h | h <;> (subst h; decide)

theorem skipWs_decomp (s : Str) :
    ∃ w, s = w ++ skipWs s ∧ ∀ c ∈ w, isWsC c = true := by
  induction s with
  | nil => exact ⟨[], rfl, by simp⟩
  | cons c cs ih =>
    rw [skipWs]
    split
    · obtain ⟨w, hw, hws⟩ := ih
      refine ⟨c :: w, by rw [List.cons_append]; exact congrArg _ hw, ?_⟩
      intro x hx
      rcases List.mem_cons.mp hx with h | h
      · subst h; assumption
      · exact hws x h
    · exact ⟨[], rfl, by simp⟩

theorem wsChunk_clean {w : Str} (h : ∀ c ∈ w, isWsC c = true) : CleanC w :=
  cleanC_of_notSpecial fun x hx => isWsC_notSpecial (h x hx)

theorem expectLit_decomp :
    ∀ (p s r : Str), expectLit p s = some r → s = p ++ r := by
  intro p
  induction p with
  | nil =>
    intro s r h
    rw [expectLit] at h
    simp only [Option.some.injEq] at h
    simp [h]
  | cons x ps ih =>
    intro s r h
    cases s with
    | nil => rw [expectLit] at h; cases h
    | cons c cs =>
      rw [expectLit] at h
      split at h
      · next hc => subst hc; rw [List.cons_append]; exact congrArg _ (ih cs r h)
      · cases h

theorem digitsSpan_decomp (s : Str) :
    s = (digitsSpan s).1 ++ (digitsSpan s).2 ∧
      ∀ c ∈ (digitsSpan s).1, isDigitC c = true := by
  induction s with
  | nil => exact ⟨rfl, by simp [digitsSpan]⟩
  | cons c cs ih =>
    rw [digitsSpan]
    split
    · next hdig =>
      refine ⟨?_, ?_⟩
      · simpa using ih.1
      · intro x hx
        simp only [List.mem_cons] at hx
        rcases hx with h | h
        · subst h; assumption
        · exact ih.2 x h
    · exact ⟨rfl, by simp⟩

theorem parseNum_sound (s : Str) (j : Json) (r : Str)
    (h : parseNum s = some (j, r)) : ∃ c, s = c ++ r ∧ CleanC c := by
  cases s with
  | nil => rw [parseNum] at h; cases h
  | cons c cs =>
    rw [parseNum] at h
    split at h
    · next hminus =>
      split at h
      · cases h
      · simp only [Option.some.injEq, Prod.mk.injEq] at h
        refine ⟨c :: (digitsSpan cs).1, ?_, ?_⟩
        · rw [List.cons_append, ← h.2]
          exact congrArg _ (digitsSpan_decomp cs).1
        · refine cleanC_cons_neutral ?_ (cleanC_of_notSpecial ?_)
          · subst hminus; decide
          · exact fun x hx => isDigitC_notSpecial ((digitsSpan_decomp cs).2 x hx)
    · split at h
      · cases h
      · simp only [Option.some.injEq, Prod.mk.injEq] at h
        refine ⟨(digitsSpan (c :: cs)).1, ?_, ?_⟩
        · rw [← h.2]
          exact (digitsSpan_decomp (c :: cs)).1
        · exact cleanC_of_notSpecial fun x hx =>
            isDigitC_notSpecial ((digitsSpan_decomp (c :: cs)).2 x hx)

theorem parseStrBody_sound :
    ∀ (fuel : Nat) (s b r : Str), parseStrBody fuel s = some (b, r) →
      ∃ c, s = c ++ r ∧ StrC c := by
  intro fuel
  induction fuel with
  | zero => intro s b r h; simp [parseStrBody] at h
  | succ fuel ih =>
    intro s b r h
    cases s with
    | nil => simp [parseStrBody] at h
    | cons c cs =>
      cases cs with
      | nil =>
        simp only [parseStrBody] at h
        split at h
        · next hq =>
          simp only [Option.some.injEq, Prod.mk.injEq] at h
          obtain ⟨hb, hr⟩ := h
          subst hr hq
          refine ⟨['"'], rfl, ?_⟩
          intro d
          rw [scan_cons, scanStep_quoteClose, scan_nil]
        · split at h
          · simp at h
          · next hq hbs =>
            split at h
            · next body r2 hrec =>
              simp only [Option.some.injEq, Prod.mk.injEq] at h
              obtain ⟨hb, hr⟩ := h
              subst hr
              obtain ⟨ch, hs2, hstr⟩ := ih [] body r2 hrec
              refine ⟨c :: ch, by simpa using hs2, ?_⟩
              intro d
              rw [scan_cons, scanStep_inBody d hbs hq, hstr d]
            · simp at h
      | cons e cs2 =>
        simp only [parseStrBody] at h
        split at h
        · next hq =>
          simp only [Option.some.injEq, Prod.mk.injEq] at h
          obtain ⟨hb, hr⟩ := h
          subst hr hq
          refine ⟨['"'], rfl, ?_⟩
          intro d
          rw [scan_cons, scanStep_quoteClose, scan_nil]
        · split at h
          · next hq hbs =>
            split at h
            · next body r2 hrec =>
              simp only [Option.some.injEq, Prod.mk.injEq] at h
              obtain ⟨hb, hr⟩ := h
              subst hr
              obtain ⟨ch, hs2, hstr⟩ := ih cs2 body r2 hrec
              refine ⟨c :: e :: ch, by simpa using hs2, ?_⟩
              intro d
              subst hbs
              rw [scan_cons, scanStep_backslashBody, scan_cons, scanStep_escaped,
                hstr d]
            · simp at h
          · next hq hbs =>
            split at h
            · next body r2 hrec =>
              simp only [Option.some.injEq, Prod.mk.injEq] at h
              obtain ⟨hb, hr⟩ := h
              subst hr
              obtain ⟨ch, hs2, hstr⟩ := ih (e :: cs2) body r2 hrec
              refine ⟨c :: ch, by simpa using hs2, ?_⟩
              intro d
              rw [scan_cons, scanStep_inBody d hbs hq, hstr d]
            · simp at h

theorem dropC_close : DropC ['\x7d'] := by
  intro d
  rw [scan_cons, scanStep_close, scan_nil]

theorem cleanC_str_then {a b : Str} (ha : StrC a) (hb : CleanC b) :
    CleanC ('"' :: (a ++ b)) := by
  intro d
  rw [scan_cons, scanStep_quoteOpen, scan_append, ha d, hb d]

theorem dropC_str_then {a b : Str} (ha : StrC a) (hb : DropC b) :
    DropC ('"' :: (a ++ b)) := by
  intro d
  rw [scan_cons, scanStep_quoteOpen, scan_append, ha d, hb d]

theorem parseAny_sound :
    ∀ (fuel : Nat) (mode : PMode) (s : Str) (res : PRes) (r : Str),
      parseAny fuel mode s = some (res, r) → ∃ c, s = c ++ r ∧ ChunkSpec mode c := by
  intro fuel
  induction fuel with
  | zero => intro mode s res r h; rw [parseAny.eq_1] at h; exact Option.noConfusion h
  | succ fuel ih =>
    intro mode s res r h
    cases mode with
    | val =>
      cases s with
      | nil => rw [parseAny.eq_2] at h; exact Option.noConfusion h
      | cons c cs =>
        by_cases hn : c = 'n'
        · subst hn
          rw [parseAny.eq_3] at h
          split at h
          · next r2 hE =>
            simp only [Option.some.injEq, Prod.mk.injEq] at h
            obtain ⟨hres, hr⟩ := h
            subst hr
            refine ⟨'n' :: toL "ull", ?_, cleanC_of_notSpecial (by decide)⟩
            rw [expectLit_decomp _ _ _ hE]
            rfl
          · exact Option.noConfusion h
        by_cases ht : c = 't'
        · subst ht
          rw [parseAny.eq_4] at h
          split at h
          · next r2 hE =>
            simp only [Option.some.injEq, Prod.mk.injEq] at h
            obtain ⟨hres, hr⟩ := h
            subst hr
            refine ⟨'t' :: toL "rue", ?_, cleanC_of_notSpecial (by decide)⟩
            rw [expectLit_decomp _ _ _ hE]
            rfl
          · exact Option.noConfusion h
        by_cases hf : c = 'f'
        · subst hf
          rw [parseAny.eq_5] at h
          split at h
          · next r2 hE =>
            simp only [Option.some.injEq, Prod.mk.injEq] at h
            obtain ⟨hres, hr⟩ := h
            subst hr
            refine ⟨'f' :: toL "alse", ?_, cleanC_of_notSpecial (by decide)⟩
            rw [expectLit_decomp _ _ _ hE]
            rfl
          · exact Option.noConfusion h
        by_cases hq : c = '"'
        · subst hq
          rw [parseAny.eq_6] at h
          split at h
          · next body r2 hB =>
            simp only [Option.some.injEq, Prod.mk.injEq] at h
            obtain ⟨hres, hr⟩ := h
            subst hr
            obtain ⟨ck, hcs, hstr⟩ := parseStrBody_sound _ _ _ _ hB
            refine ⟨'"' :: ck, ?_, cleanC_quote_str hstr⟩
            rw [hcs]
            rfl
          · exact Option.noConfusion h
        by_cases hbr : c = '['
        · subst hbr
          rw [parseAny.eq_7] at h
          obtain ⟨w, hw, hws⟩ := skipWs_decomp cs
          split at h
          · next r2 heq =>
            simp only [Option.some.injEq, Prod.mk.injEq] at h
            obtain ⟨hres, hr⟩ := h
            subst hr
            refine ⟨'[' :: (w ++ [']']), ?_, ?_⟩
            · rw [hw, heq]
              simp [List.append_assoc]
            · exact cleanC_cons_neutral (by decide)
                (cleanC_append (wsChunk_clean hws) (cleanC_of_notSpecial (by decide)))
          · split at h
            · next l r2 hrec =>
              simp only [Option.some.injEq, Prod.mk.injEq] at h
              obtain ⟨hres, hr⟩ := h
              subst hr
              obtain ⟨ca, hca, hclean⟩ := ih .arrRest _ _ _ hrec
              refine ⟨'[' :: (w ++ ca), ?_, ?_⟩
              · rw [hw, hca]
                simp [List.append_assoc]
              · exact cleanC_cons_neutral (by decide)
                  (cleanC_append (wsChunk_clean hws) hclean)
            · exact Option.noConfusion h
        by_cases hob : c = '\x7b'
        · subst hob
          rw [parseAny.eq_8] at h
          obtain ⟨w, hw, hws⟩ := skipWs_decomp cs
          split at h
          · next r2 heq =>
            simp only [Option.some.injEq, Prod.mk.injEq] at h
            obtain ⟨hres, hr⟩ := h
            subst hr
            refine ⟨'\x7b' :: (w ++ ['\x7d']), ?_, ?_⟩
            · rw [hw, heq]
              simp [List.append_assoc]
            · exact cleanC_open_drop (dropC_clean_close (wsChunk_clean hws))
          · split at h
            · next m r2 hrec =>
              simp only [Option.some.injEq, Prod.mk.injEq] at h
              obtain ⟨hres, hr⟩ := h
              subst hr
              obtain ⟨co, hco, hdrop⟩ := ih .objRest _ _ _ hrec
              refine ⟨'\x7b' :: (w ++ co), ?_, ?_⟩
              · rw [hw, hco]
                simp [List.append_assoc]
              · exact cleanC_open_drop (dropC_append_clean (wsChunk_clean hws) hdrop)
            · exact Option.noConfusion h
        · rw [parseAny.eq_9 fuel c cs (fun hh => hn hh) (fun hh => ht hh)
            (fun hh => hf hh) (fun hh => hq hh) (fun hh => hbr hh)
            (fun hh => hob hh)] at h
          split at h
          · split at h
            · next j r2 hnum =>
              simp only [Option.some.injEq, Prod.mk.injEq] at h
              obtain ⟨hres, hr⟩ := h
              subst hr
              obtain ⟨cn, hcn, hclean⟩ := parseNum_sound _ _ _ hnum
              exact ⟨cn, hcn, hclean⟩
            · exact Option.noConfusion h
          · exact Option.noConfusion h
    | arrRest =>
      rw [parseAny.eq_10] at h
      obtain ⟨w, hw, hws⟩ := skipWs_decomp s
      split at h
      · next x r2 hrecV =>
        obtain ⟨cv, hcv, hcleanV⟩ := ih .val _ _ _ hrecV
        obtain ⟨w2, hw2, hws2⟩ := skipWs_decomp r2
        split at h
        · next r3 heq =>
          simp only [Option.some.injEq, Prod.mk.injEq] at h
          obtain ⟨hres, hr⟩ := h
          subst hr
          refine ⟨w ++ (cv ++ (w2 ++ [']'])), ?_, ?_⟩
          · rw [hw, hcv, hw2, heq]
            simp [List.append_assoc]
          · exact cleanC_append (wsChunk_clean hws)
              (cleanC_append hcleanV
                (cleanC_append (wsChunk_clean hws2) (cleanC_of_notSpecial (by decide))))
        · next r3 heq =>
          split at h
          · next tl r4 hrec2 =>
            simp only [Option.some.injEq, Prod.mk.injEq] at h
            obtain ⟨hres, hr⟩ := h
            subst hr
            obtain ⟨ct, hct, hcleanT⟩ := ih .arrRest _ _ _ hrec2
            refine ⟨w ++ (cv ++ (w2 ++ (',' :: ct))), ?_, ?_⟩
            · rw [hw, hcv, hw2, heq, hct]
              simp [List.append_assoc]
            · exact cleanC_append (wsChunk_clean hws)
                (cleanC_append hcleanV
                  (cleanC_append (wsChunk_clean hws2)
                    (cleanC_cons_neutral (by decide) hcleanT)))
          · exact Option.noConfusion h
        · exact Option.noConfusion h
      · exact Option.noConfusion h
    | objRest =>
      rw [parseAny.eq_11] at h
      obtain ⟨w, hw, hws⟩ := skipWs_decomp s
      split at h
      · next cs heq0 =>
        split at h
        · next k r2 hK =>
          obtain ⟨ck, hck, hstrK⟩ := parseStrBody_sound _ _ _ _ hK
          obtain ⟨w2, hw2, hws2⟩ := skipWs_decomp r2
          split at h
          · next r3 heq1 =>
            split at h
            · next x r4 hrecV =>
              obtain ⟨cv, hcv, hcleanV⟩ := ih .val _ _ _ hrecV
              obtain ⟨w3, hw3, hws3⟩ := skipWs_decomp r3
              obtain ⟨w4, hw4, hws4⟩ := skipWs_decomp r4
              split at h
              · next r5 heq2 =>
                simp only [Option.some.injEq, Prod.mk.injEq] at h
                obtain ⟨hres, hr⟩ := h
                subst hr
                refine ⟨w ++ ('"' :: (ck ++ (w2 ++ (':' :: (w3 ++ (cv ++ (w4 ++ ['\x7d']))))))), ?_, ?_⟩
                · rw [hw, heq0, hck, hw2, heq1, hw3, hcv, hw4, heq2]
                  simp [List.append_assoc]
                · exact dropC_append_clean (wsChunk_clean hws)
                    (dropC_str_then hstrK
                      (dropC_append_clean (wsChunk_clean hws2)
                        (dropC_cons_neutral (by decide)
                          (dropC_append_clean (wsChunk_clean hws3)
                            (dropC_append_clean hcleanV
                              (dropC_clean_close (wsChunk_clean hws4)))))))
              · next r5 heq2 =>
                split at h
                · next tl r6 hrec2 =>
                  simp only [Option.some.injEq, Prod.mk.injEq] at h
                  obtain ⟨hres, hr⟩ := h
                  subst hr
                  obtain ⟨ct, hct, hdropT⟩ := ih .objRest _ _ _ hrec2
                  refine ⟨w ++ ('"' :: (ck ++ (w2 ++ (':' :: (w3 ++ (cv ++ (w4 ++ (',' :: ct)))))))), ?_, ?_⟩
                  · rw [hw, heq0, hck, hw2, heq1, hw3, hcv, hw4, heq2, hct]
                    simp [List.append_assoc]
                  · exact dropC_append_clean (wsChunk_clean hws)
                      (dropC_str_then hstrK
                        (dropC_append_clean (wsChunk_clean hws2)
                          (dropC_cons_neutral (by decide)
                            (dropC_append_clean (wsChunk_clean hws3)
                              (dropC_append_clean hcleanV
                                (dropC_append_clean (wsChunk_clean hws4)
                                  (dropC_cons_neutral (by decide) hdropT)))))))
                · exact Option.noConfusion h
              · exact Option.noConfusion h
            · exact Option.noConfusion h
          · exact Option.noConfusion h
        · exact Option.noConfusion h
      · exact Option.noConfusion h

theorem skipWs_eq_nil_ws {r : Str} (h : skipWs r = []) :
    ∀ c ∈ r, isWsC c = true := by
  obtain ⟨w, hw, hws⟩ := skipWs_decomp r
  rw [h, List.append_nil] at hw
  intro c hc
  exact hws c (hw ▸ hc)

/-- Soundness of the `json.loads` model with respect to the scanner: a text it
accepts is depth-balanced and ends outside any string literal. -/
theorem json_loads_scan (s : Str) (j : Json) (h : json_loads s = some j) :
    scan ⟨0, false, false⟩ s = ⟨0, false, false⟩ := by
  rw [json_loads] at h
  split at h
  · next j2 r heq =>
    split at h
    · next hnil =>
      obtain ⟨w, hw, hws⟩ := skipWs_decomp s
      obtain ⟨c, hc, hclean⟩ := parseAny_sound _ .val _ _ _ heq
      have hrw : ∀ x ∈ r, isWsC x = true := skipWs_eq_nil_ws hnil
      rw [hw, hc]
      rw [scan_append, scan_append, wsChunk_clean hws 0, hclean 0,
        wsChunk_clean hrw 0]
    · exact Option.noConfusion h
  · exact Option.noConfusion h

/-- Key rejection property behind the truncation claim: no strict nonempty
prefix of a serialized JSON object parses. -/
theorem json_loads_strictPref_obj (m : JsonMembers) (p q : Str)
    (hsplit : serJson (.obj m) = p ++ q) (hq : q ≠ []) (hp : p ≠ []) :
    json_loads p = none := by
  rcases hj : json_loads p with _ | j
  · rfl
  · exfalso
    have hclean := json_loads_scan p j hj
    have hdepth := serObj_strictPref_depth m p q hsplit hq hp
    rw [hclean] at hdepth
    exact absurd hdepth (by norm_num)

/-! ### Document and host model

The LibreOffice host owns the document state.  A Writer text document is its
paragraph list (`getText().getString()` joins paragraphs with a newline); an
Impress presentation is its slide list, each slide reduced to the text of its
resolved title and content shapes.  `Fs` is the host-visible file system,
`Host` adds the count of currently open document handles, and `HostEnv`
bundles the host behaviours the helper merely observes. -/

structure Slide where
  title : Str
  content : Str
deriving DecidableEq

inductive Document where
  | text : List Str → Document
  | pres : List Slide → Document
deriving DecidableEq

abbrev Fs := List (Str × Document)

def fsGet : Fs → Str → Option Document
  | [], _ => none
  | (p, d) :: t, q => if q = p then some d else fsGet t q

def fsSet : Fs → Str → Document → Fs
  | [], q, d => [(q, d)]
  | (p, e) :: t, q, d => if q = p then (p, d) :: t else (p, e) :: fsSet t q d

structure Host where
  fs : Fs
  openDocs : Nat
deriving DecidableEq

structure DirEntry where
  name : Str
  isFile : Bool
  size : Nat
  modified : Str
deriving DecidableEq

/-- External behaviours of the LibreOffice host observed by the helper:
`storeText` is the text a shape actually holds after `setString` (read back
by the explicit verification steps), `copyErrs`/`copyCritical` are the
shape-copy failures the host may raise per slide while applying a
presentation template, `templateFound` is the outcome of the template search
over the host filesystem, and `dirs` is the `os.listdir` view backing
`list_documents`. -/
structure HostEnv where
  storeText : Str → Str
  copyErrs : Nat → List Str
  copyCritical : Nat → Bool
  templateFound : Bool
  dirs : Str → Option (List DirEntry)

/-- Model of `open_document` (helper.py 134-163): path normalization,
existence check, then `loadComponentFromURL` with a fixed-count retry loop.
Path normalization (`expanduser`/`abspath`) and the UNO desktop connection
are environment interactions; in the model every path is already absolute
and the desktop is reachable, so opening succeeds exactly when the file
exists. -/
def open_document (fs : Fs) (path : Str) : Except Str Document :=
  match fsGet fs path with
  | some d => Except.ok d
  | none => Except.error (toL "Document not found: " ++ path)

/-- Model of the `managed_document` context manager (helper.py 59-70): open
the document, raising `HelperError` when that fails, run the body, and close
the handle in a `finally` block on every exit path. -/
def managed_document (st : Host) (path : Str) (readOnly : Bool)
    (body : Document → Host → Host × Except Str Str) : Host × Except Str Str :=
  match open_document st.fs path with
  | .error e => (st, .error e)
  | .ok doc =>
    let stOpen : Host := { st with openDocs := st.openDocs + 1 }
    let p := body doc stOpen
    ({ p.1 with openDocs := p.1.openDocs - 1 }, p.2)

/-! ### Writer text representation -/

def textOf : List Str → Str
  | [] => []
  | [p] => p
  | p :: q :: t => p ++ '\n' :: textOf (q :: t)

def splitNl : Str → List Str
  | [] => [[]]
  | c :: cs =>
    if c = '\n' then [] :: splitNl cs
    else
      match splitNl cs with
      | [] => [[c]]
      | l :: ls => (c :: l) :: ls

/-- Model of `insertString` at `text_obj.getEnd()`: the inserted text is
appended after the last paragraph, newline characters becoming paragraph
breaks. -/
def insertEnd : List Str → Str → List Str
  | [], t => splitNl t
  | [p], t =>
    match splitNl t with
    | [] => [p]
    | l :: ls => (p ++ l) :: ls
  | p :: q :: tl, t => p :: insertEnd (q :: tl) t

def appendToLast : List Str → Str → List Str
  | [], s => [s]
  | [l], s => [l ++ s]
  | l :: l2 :: ls, s => l :: appendToLast (l2 :: ls) s

/-- Model of `insertString` at `text_obj.getStart()` (also used for the
`cursor` position: a fresh text cursor sits at the start of the text). -/
def insertStart (ps : List Str) (t : Str) : List Str :=
  match ps with
  | [] => splitNl t
  | p :: rest => appendToLast (splitNl t) p ++ rest

/-! ### Substring search and case-insensitive replacement -/

def startsWithEq : Str → Str → Bool
  | [], _ => true
  | _ :: _, [] => false
  | n :: ns, h :: hs => if n = h then startsWithEq ns hs else false

def startsWithLower : Str → Str → Bool
  | [], _ => true
  | _ :: _, [] => false
  | n :: ns, h :: hs => if n.toLower = h.toLower then startsWithLower ns hs else false

/-- Model of the Python `in` substring test (case-sensitive). -/
def containsSub : Str → Str → Bool
  | [], needle => needle.isEmpty
  | c :: t, needle => startsWithEq needle (c :: t) || containsSub t needle

/-- Model of UNO `replaceAll` with `SearchCaseSensitive = False`: replace
case-insensitive occurrences left to right without overlap, returning the
replacement count and the new text.  Fuel keeps the recursion structural. -/
def replaceAllCIAux : Nat → Str → Str → Str → Nat × Str
  | 0, _, _, rest => (0, rest)
  | fuel + 1, needle, rep, hay =>
    match hay with
    | [] => (0, [])
    | c :: t =>
      if (!needle.isEmpty) && startsWithLower needle (c :: t) then
        let p := replaceAllCIAux fuel needle rep (List.drop needle.length (c :: t))
        (p.1 + 1, rep ++ p.2)
      else
        let p := replaceAllCIAux fuel needle rep t
        (p.1, c :: p.2)

def replaceAllCI (needle rep hay : Str) : Nat × Str :=
  replaceAllCIAux (hay.length + 1) needle rep hay

/-! ### Writer operations (helper.py 359-849) -/

def extract_text (st : Host) (file_path : Str) : Host × Except Str Str :=
  managed_document st file_path true fun doc st1 =>
    match doc with
    | .text ps => (st1, .ok (textOf ps))
    | .pres _ => (st1, .error (toL "Document does not support text extraction"))

def add_text (st : Host) (file_path text position : Str) : Host × Except Str Str :=
  managed_document st file_path false fun doc st1 =>
    match doc with
    | .text ps =>
      let ps2 :=
        if position = toL "start" then insertStart ps text
        else if position = toL "cursor" then insertStart ps text
        else insertEnd ps text
      ({ st1 with fs := fsSet st1.fs file_path (.text ps2) },
        .ok (toL "Text added to " ++ file_path))
    | .pres _ => (st1, .error (toL "Document does not support text insertion"))

def search_replace_text (st : Host) (file_path search_text replace_text : Str) :
    Host × Except Str Str :=
  managed_document st file_path false fun doc st1 =>
    match doc with
    | .text ps =>
      let document_text := textOf ps
      if containsSub document_text search_text then
        let p := replaceAllCI search_text replace_text document_text
        ({ st1 with fs := fsSet st1.fs file_path (.text (splitNl p.2)) },
          .ok (toL "Replaced " ++ natToChars p.1 ++ toL " occurrences of \x27" ++
            search_text ++ toL "\x27 with \x27" ++ replace_text ++
            toL "\x27 in " ++ file_path))
      else
        (st1, .error (toL "Text \x27" ++ search_text ++
          toL "\x27 not found in document"))
    | .pres _ => (st1, .error (toL "Document does not support search and replace"))

/-- Model of `delete_text` (helper.py 527-529), which delegates to
`search_replace_text` with an empty replacement. -/
def delete_text (st : Host) (file_path text_to_delete : Str) :
    Host × Except Str Str :=
  search_replace_text st file_path text_to_delete []

def delete_paragraph (st : Host) (file_path : Str) (paragraph_index : Int) :
    Host × Except Str Str :=
  managed_document st file_path false fun doc st1 =>
    match doc with
    | .text ps =>
      if paragraph_index < 0 ∨ (ps.length : Int) ≤ paragraph_index then
        (st1, .error (toL "Paragraph index " ++ intToChars paragraph_index ++
          toL " is out of range (document has " ++ natToChars ps.length ++
          toL " paragraphs)"))
      else
        ({ st1 with
            fs := fsSet st1.fs file_path (.text (ps.eraseIdx paragraph_index.toNat)) },
          .ok (toL "Paragraph at index " ++ intToChars paragraph_index ++
            toL " deleted from " ++ file_path))
    | .pres _ => (st1, .error (toL "Document does not support paragraph deletion"))

/-! ### Directory listing (helper.py 226-292) -/

def lowerStr (s : Str) : Str := s.map Char.toLower

def splitextAux : Str → Option (Str × Str)
  | [] => none
  | c :: cs =>
    match splitextAux cs with
    | some (root, ext) => some (c :: root, ext)
    | none => if c = '.' then some ([], '.' :: cs) else none

/-- Model of `os.path.splitext(file)[1]`: the part of the name from its last
dot on, except that a name whose characters before that dot are all dots has
no extension. -/
def extOf (name : Str) : Str :=
  match splitextAux name with
  | some (root, ext) => if root.any (fun c => c != '.') then ext else []
  | none => []

def extensions : List Str :=
  [toL ".odt", toL ".ods", toL ".odp", toL ".odg",
   toL ".doc", toL ".docx", toL ".xls", toL ".xlsx", toL ".ppt", toL ".pptx",
   toL ".rtf", toL ".txt", toL ".csv", toL ".pdf"]

def docTypeOf (ext : Str) : Str :=
  if ext ∈ [toL ".odt", toL ".doc", toL ".docx", toL ".rtf", toL ".txt"] then
    toL "text"
  else if ext ∈ [toL ".ods", toL ".xls", toL ".xlsx", toL ".csv"] then
    toL "spreadsheet"
  else if ext ∈ [toL ".odp", toL ".ppt", toL ".pptx"] then
    toL "presentation"
  else if ext = toL ".odg" then toL "drawing"
  else if ext = toL ".pdf" then toL "pdf"
  else toL "unknown"

structure DocRecord where
  name : Str
  path : Str
  size : Nat
  modified : Str
  docType : Str
  extension : Str
deriving DecidableEq

/-- Path join; the model uses a fixed `/` separator for `os.path.join`. -/
def pathJoin (dir file : Str) : Str := dir ++ '/' :: file

def lexLe : Str → Str → Bool
  | [], _ => true
  | _ :: _, [] => false
  | a :: as, b :: bs => if a < b then true else if a = b then lexLe as bs else false

/-- Records built by the `list_documents` loop: regular files whose lowered
extension is supported, in directory order, then sorted by file name as by
Python `sorted(key=name)`. -/
def listDocsRecords (dirPath : Str) (entries : List DirEntry) : List DocRecord :=
  (entries.filterMap fun e =>
    if e.isFile && decide (lowerStr (extOf e.name) ∈ extensions) then
      some { name := e.name, path := pathJoin dirPath e.name, size := e.size,
             modified := e.modified,
             docType := docTypeOf (lowerStr (extOf e.name)),
             extension := (lowerStr (extOf e.name)).drop 1 }
    else none).mergeSort (fun a b => lexLe a.name b.name)

/-- Size display; the source formats `size/1024` as a one-decimal float, the
model truncates to tenths with integer arithmetic. -/
def sizeDisplay (size : Nat) : Str :=
  if size < 1024 * 1024 then
    let t := size * 10 / 1024
    natToChars (t / 10) ++ '.' :: digitChar (t % 10) :: toL " KB"
  else
    let t := size * 10 / (1024 * 1024)
    natToChars (t / 10) ++ '.' :: digitChar (t % 10) :: toL " MB"

def formatDocRecord (d : DocRecord) : Str :=
  toL "Name: " ++ d.name ++ '\n' ::
    (toL "Type: " ++ d.docType ++ toL " (" ++ d.extension ++ toL ")" ++ '\n' ::
      (toL "Size: " ++ sizeDisplay d.size ++ '\n' ::
        (toL "Modified: " ++ d.modified ++ '\n' ::
          (toL "Path: " ++ d.path ++ '\n' :: toL "---\n"))))

def list_documents (env : HostEnv) (st : Host) (directory : Str) :
    Host × Except Str Str :=
  match env.dirs directory with
  | none => (st, .error (toL "Directory not found: " ++ directory))
  | some entries =>
    let docs := listDocsRecords directory entries
    if docs.isEmpty then (st, .ok (toL "No documents found in the directory."))
    else
      (st, .ok (toL "Found " ++ natToChars docs.length ++ toL " documents in " ++
        directory ++ toL ":\n\n" ++ (docs.map formatDocRecord).flatten))

/-! ### Impress operations (helper.py 853-2067) -/

/-- Model of `get_validated_slide` (helper.py 861-876): the index-range check
comes first, the protection of the last slide second; on success the slide at
the index is returned. -/
def get_validated_slide (numSlides : Nat) (slide_index : Int) (del : Bool) :
    Except Str Nat :=
  if slide_index < 0 ∨ (numSlides : Int) ≤ slide_index then
    .error (toL "Slide index " ++ intToChars slide_index ++ toL " is out of range")
  else if del && (numSlides == 1) then
    .error (toL "Cannot delete the only slide in the presentation")
  else .ok slide_index.toNat

def delete_slide (st : Host) (file_path : Str) (slide_index : Int) :
    Host × Except Str Str :=
  managed_document st file_path false fun doc st1 =>
    match doc with
    | .pres slides =>
      let numSlides := slides.length
      match get_validated_slide numSlides slide_index true with
      | .error e => (st1, .error e)
      | .ok i =>
        let slides2 := slides.eraseIdx i
        let newCount := slides2.length
        if newCount ≠ numSlides - 1 then
          (st1, .error (toL "Slide deletion verification failed: expected " ++
            natToChars (numSlides - 1) ++ toL " slides, got " ++ natToChars newCount))
        else
          ({ st1 with fs := fsSet st1.fs file_path (.pres slides2) },
            .ok (toL "Successfully deleted slide at index " ++
              intToChars slide_index ++ toL " from " ++ file_path ++
              toL ". Presentation now has " ++ natToChars newCount ++ toL " slides."))
    | .text _ => (st1, .error (toL "Document does not support slides/pages"))

/-- Model of `edit_slide_content` (helper.py 1219-1406).  The shape-priority
ladder (lines 1240-1362) resolves the slide's main content text shape,
synthesizing one when none qualifies; the model represents that resolved
target as the slide's `content` field.  The text the host actually stores is
`env.storeText new_content`; when it differs from the requested text the
read-back verification fails, which only changes the reported message — the
document is still saved. -/
def edit_slide_content (env : HostEnv) (st : Host) (file_path : Str)
    (slide_index : Int) (new_content : Str) : Host × Except Str Str :=
  managed_document st file_path false fun doc st1 =>
    match doc with
    | .pres slides =>
      match get_validated_slide slides.length slide_index false with
      | .error e => (st1, .error e)
      | .ok i =>
        let target := slides.getD i ⟨[], []⟩
        let stored := env.storeText new_content
        let editResult :=
          if stored = new_content then toL "Content updated successfully"
          else toL "Content update failed - verification error"
        ({ st1 with
            fs := fsSet st1.fs file_path (.pres (slides.set i { target with content := stored })) },
          .ok (toL "Successfully edited content of slide " ++
            intToChars slide_index ++ toL " in " ++ file_path ++ toL ". " ++
            editResult))
    | .text _ => (st1, .error (toL "Document does not support slides/pages"))

/-- Model of `edit_slide_title` (helper.py 1408-1623), structured exactly as
`edit_slide_content` but targeting the resolved title shape. -/
def edit_slide_title (env : HostEnv) (st : Host) (file_path : Str)
    (slide_index : Int) (new_title : Str) : Host × Except Str Str :=
  managed_document st file_path false fun doc st1 =>
    match doc with
    | .pres slides =>
      match get_validated_slide slides.length slide_index false with
      | .error e => (st1, .error e)
      | .ok i =>
        let target := slides.getD i ⟨[], []⟩
        let stored := env.storeText new_title
        let editResult :=
          if stored = new_title then toL "Title updated successfully"
          else toL "Title update failed - verification error"
        ({ st1 with
            fs := fsSet st1.fs file_path (.pres (slides.set i { target with title := stored })) },
          .ok (toL "Successfully edited title of slide " ++
            intToChars slide_index ++ toL " in " ++ file_path ++ toL ". " ++
            editResult))
    | .text _ => (st1, .error (toL "Document does not support slides/pages"))

/-- Model of `apply_presentation_template` (helper.py 1663-2067).  The
template search over the host filesystem is summarized by
`env.templateFound`; the per-slide shape copying into the document created
from the template may raise host-side errors (`env.copyErrs`, plus a
critical per-slide failure `env.copyCritical` that also skips the
`slides_processed` increment).  When any copy error was recorded the
function aborts before `storeToURL`, leaving the target file untouched;
otherwise the templated document, carrying the copied slide texts, is saved
over the target. -/
def apply_presentation_template (env : HostEnv) (st : Host)
    (file_path template_name : Str) : Host × Except Str Str :=
  if !env.templateFound then
    (st, .error (toL "Could not find template \x27" ++ template_name ++
      toL "\x27 in any location."))
  else
    managed_document st file_path false fun doc st1 =>
      match doc with
      | .pres slides =>
        let n := slides.length
        if n = 0 then (st1, .error (toL "Target presentation has no slides"))
        else
          let copyErrors := ((List.range n).map fun i =>
            env.copyErrs i ++
              (if env.copyCritical i then
                [toL "Critical error processing slide " ++ natToChars i]
              else [])).flatten
          let processed := ((List.range n).filter fun i => !env.copyCritical i).length
          if copyErrors ≠ [] then
            (st1, .error (toL "Content copying failed with " ++
              natToChars copyErrors.length ++
              toL " errors. No changes will be applied to preserve data integrity. First error: " ++
              copyErrors.headD []))
          else if processed ≠ n then
            (st1, .error (toL "Only processed " ++ natToChars processed ++
              toL " of " ++ natToChars n ++ toL " slides. Aborting to prevent data loss."))
          else if slides.length ≠ n then
            (st1, .error (toL "Final slide count mismatch: expected " ++
              natToChars n ++ toL ", got " ++ natToChars slides.length))
          else
            ({ st1 with fs := fsSet st1.fs file_path (.pres slides) },
              .ok (toL "Successfully applied template \x27" ++ template_name ++
                toL "\x27 to presentation with all content preserved"))
      | .text _ => (st1, .error (toL "Document does not support slides/pages"))

/-! ### Command envelope and dispatch (helper.py 2720-2926) -/

/-- Fields of the JSON command object with the defaults the dispatch lambdas
pass to `cmd.get`. -/
structure Command where
  action : Str := []
  file_path : Str := []
  text : Str := []
  position : Str := toL "end"
  directory : Str := []
  search_text : Str := []
  replace_text : Str := []
  text_to_delete : Str := []
  paragraph_index : Int := 0
  slide_index : Int := 0
  new_title : Str := []
  new_content : Str := []
  template_name : Str := []
deriving DecidableEq

structure Response where
  status : Str
  message : Str
deriving DecidableEq

/-- Last binding of a key in a member list, matching Python dict semantics
where a later duplicate key wins. -/
def getMember : JsonMembers → Str → Option Json
  | .nil, _ => none
  | .cons k v tl, key =>
    match getMember tl key with
    | some r => some r
    | none => if k = key then some v else none

def getStrField (ms : JsonMembers) (key dflt : Str) : Str :=
  match getMember ms key with
  | some (.str s) => s
  | _ => dflt

def getIntField (ms : JsonMembers) (key : Str) (dflt : Int) : Int :=
  match getMember ms key with
  | some (.num i) => i
  | _ => dflt

/-- Field extraction performed by the dispatch lambdas via `cmd.get`; a field
bound to a JSON value of an unexpected type is modelled as its default. -/
def commandOfMembers (ms : JsonMembers) : Command :=
  { action := getStrField ms (toL "action") [],
    file_path := getStrField ms (toL "file_path") [],
    text := getStrField ms (toL "text") [],
    position := getStrField ms (toL "position") (toL "end"),
    directory := getStrField ms (toL "directory") [],
    search_text := getStrField ms (toL "search_text") [],
    replace_text := getStrField ms (toL "replace_text") [],
    text_to_delete := getStrField ms (toL "text_to_delete") [],
    paragraph_index := getIntField ms (toL "paragraph_index") 0,
    slide_index := getIntField ms (toL "slide_index") 0,
    new_title := getStrField ms (toL "new_title") [],
    new_content := getStrField ms (toL "new_content") [],
    template_name := getStrField ms (toL "template_name") [] }

def Handler := HostEnv → Host → Command → Host × Except Str Str

/-- Placeholder for the dispatch-table entries no verified claim exercises:
these operations drive the external host through UNO calls whose observable
behaviour none of the claims below constrain. -/
def unmodelledOp (name : Str) : Handler :=
  fun _ st _ => (st, .error (toL "operation not modelled in this embedding: " ++ name))

/-- The dispatch table (helper.py 2721-2861): the same 27 action keys, each
bound to the adapter lambda passing `cmd.get` fields to its operation. -/
def COMMAND_HANDLERS : List (Str × Handler) :=
  [(toL "create_document", unmodelledOp (toL "create_document")),
   (toL "read_text_document", fun _ st cmd => extract_text st cmd.file_path),
   (toL "get_document_properties", unmodelledOp (toL "get_document_properties")),
   (toL "list_documents", fun env st cmd => list_documents env st cmd.directory),
   (toL "copy_document", unmodelledOp (toL "copy_document")),
   (toL "add_slide", unmodelledOp (toL "add_slide")),
   (toL "edit_slide_content", fun env st cmd =>
     edit_slide_content env st cmd.file_path cmd.slide_index cmd.new_content),
   (toL "edit_slide_title", fun env st cmd =>
     edit_slide_title env st cmd.file_path cmd.slide_index cmd.new_title),
   (toL "delete_slide", fun _ st cmd =>
     delete_slide st cmd.file_path cmd.slide_index),
   (toL "read_presentation", unmodelledOp (toL "read_presentation")),
   (toL "apply_presentation_template", fun env st cmd =>
     apply_presentation_template env st cmd.file_path cmd.template_name),
   (toL "format_slide_content", unmodelledOp (toL "format_slide_content")),
   (toL "format_slide_title", unmodelledOp (toL "format_slide_title")),
   (toL "insert_slide_image", unmodelledOp (toL "insert_slide_image")),
   (toL "add_text", fun _ st cmd => add_text st cmd.file_path cmd.text cmd.position),
   (toL "add_heading", unmodelledOp (toL "add_heading")),
   (toL "add_paragraph", unmodelledOp (toL "add_paragraph")),
   (toL "add_table", unmodelledOp (toL "add_table")),
   (toL "insert_image", unmodelledOp (toL "insert_image")),
   (toL "insert_page_break", unmodelledOp (toL "insert_page_break")),
   (toL "format_text", unmodelledOp (toL "format_text")),
   (toL "search_replace_text", fun _ st cmd =>
     search_replace_text st cmd.file_path cmd.search_text cmd.replace_text),
   (toL "delete_text", fun _ st cmd =>
     delete_text st cmd.file_path cmd.text_to_delete),
   (toL "format_table", unmodelledOp (toL "format_table")),
   (toL "delete_paragraph", fun _ st cmd =>
     delete_paragraph st cmd.file_path cmd.paragraph_index),
   (toL "apply_document_style", unmodelledOp (toL "apply_document_style")),
   (toL "ping", fun _ st _ => (st, .ok (toL "LibreOffice helper is running")))]

def findHandler : List (Str × Handler) → Str → Option Handler
  | [], _ => none
  | (k, h) :: t, a => if a = k then some h else findHandler t a

/-- Model of `handle_command` (helper.py 2863-2880): look the action up in
the dispatch table; a hit runs the handler through `safe_execute` (which
passes `HelperError` through unchanged — every modelled failure is one), a
miss returns the plain `Unknown action` string as an ordinary result. -/
def handle_command (env : HostEnv) (st : Host) (cmd : Command) :
    Host × Except Str Str :=
  match findHandler COMMAND_HANDLERS cmd.action with
  | some h => h env st cmd
  | none => (st, .ok (toL "Unknown action: " ++ cmd.action))

/-- Envelope construction in the main server loop (helper.py 2907-2926): a
returned result is wrapped in a success envelope, a raised exception in an
error envelope carrying `Error: ` and the exception text. -/
def processCommand (env : HostEnv) (st : Host) (cmd : Command) :
    Host × Response :=
  match handle_command env st cmd with
  | (st2, .ok msg) => (st2, ⟨toL "success", msg⟩)
  | (st2, .error e) => (st2, ⟨toL "error", toL "Error: " ++ e⟩)

def pyTypeName : Json → Str
  | .null => toL "NoneType"
  | .bool _ => toL "bool"
  | .num _ => toL "int"
  | .str _ => toL "str"
  | .arr _ => toL "list"
  | .obj _ => toL "dict"

/-- Model of one iteration of the main server loop (helper.py 2894-2931) on
received data: empty data closes the connection without a response;
undecodable JSON answers the fixed invalid-JSON error envelope; a JSON value
that is not an object makes `command.get` raise `AttributeError`, reported
through the generic exception path; an object is dispatched. -/
def processData (env : HostEnv) (st : Host) (data : Str) :
    Option (Host × Response) :=
  if data = [] then none
  else
    some (match json_loads data with
      | none => (st, ⟨toL "error", toL "Invalid JSON received"⟩)
      | some (.obj ms) => processCommand env st (commandOfMembers ms)
      | some j => (st, ⟨toL "error",
          toL "Error: \x27" ++ pyTypeName j ++
            toL "\x27 object has no attribute \x27get\x27"⟩))

/-! ### Utility lemmas about the model -/

theorem findHandler_none (l : List (Str × Handler)) (a : Str)
    (h : a ∉ l.map Prod.fst) : findHandler l a = none := by
  induction l with
  | nil => rfl
  | cons p t ih =>
    rw [findHandler]
    rw [List.map_cons, List.mem_cons] at h
    push_neg at h
    rw [if_neg h.1]
    exact ih h.2

theorem host_eta (st : Host) :
    ({ fs := st.fs, openDocs := st.openDocs + 1 - 1 } : Host) = st := by
  cases st
  simp

theorem fsGet_fsSet (fs : Fs) (p : Str) (d : Document) :
    fsGet (fsSet fs p d) p = some d := by
  induction fs with
  | nil => simp [fsSet, fsGet]
  | cons e t ih =>
    obtain ⟨q, x⟩ := e
    rw [fsSet]
    split
    · next he => rw [fsGet, if_pos he]
    · next he => rw [fsGet, if_neg he]; exact ih

/-! ### C1: unknown actions answer a success envelope -/

/-- C1: for every command whose `action` string is not a key of the
dispatch table, the executor answers the envelope with status `success` and
message `Unknown action: <name>` — a success status, not an error status. -/
theorem c1_unknown_action_success_envelope (env : HostEnv) (st : Host)
    (cmd : Command) (h : cmd.action ∉ COMMAND_HANDLERS.map Prod.fst) :
    processCommand env st cmd =
      (st, ⟨toL "success", toL "Unknown action: " ++ cmd.action⟩) := by
  unfold processCommand handle_command
  rw [findHandler_none _ _ h]

/-- C1 witness: the action `frobnicate` is not in the dispatch table and gets
the success-status unknown-action envelope. -/
theorem c1_unknown_action_success_envelope_witness :
    (toL "frobnicate" ∉ COMMAND_HANDLERS.map Prod.fst) ∧
    processCommand
        ⟨id, fun _ => [], fun _ => false, false, fun _ => none⟩ ⟨[], 0⟩
        { action := toL "frobnicate" } =
      (⟨[], 0⟩, ⟨toL "success", toL "Unknown action: " ++ toL "frobnicate"⟩) := by
  refine ⟨by decide, ?_⟩
  exact c1_unknown_action_success_envelope _ _ _ (by decide)

/-! ### C3: out-of-range delete_paragraph -/

theorem delete_paragraph_oor (st : Host) (path : Str) (ps : List Str)
    (idx : Int) (h : fsGet st.fs path = some (.text ps))
    (hidx : idx < 0 ∨ (ps.length : Int) ≤ idx) :
    delete_paragraph st path idx =
      (st, .error (toL "Paragraph index " ++ intToChars idx ++
        toL " is out of range (document has " ++ natToChars ps.length ++
        toL " paragraphs)")) := by
  unfold delete_paragraph managed_document open_document
  rw [h]
  simp only []
  rw [if_pos hidx]
  exact Prod.ext_iff.mpr ⟨host_eta st, rfl⟩

/-- C3: a `delete_paragraph` request whose index is negative or at least the
paragraph count answers a status `error` envelope and leaves the host state,
hence the document's paragraph count, unchanged: the index check precedes
any mutation. -/
theorem c3_delete_paragraph_oor_error_unchanged (env : HostEnv) (st : Host)
    (path : Str) (ps : List Str) (idx : Int)
    (h : fsGet st.fs path = some (.text ps))
    (hidx : idx < 0 ∨ (ps.length : Int) ≤ idx) :
    processCommand env st
        { action := toL "delete_paragraph", file_path := path,
          paragraph_index := idx } =
      (st, ⟨toL "error", toL "Error: " ++ (toL "Paragraph index " ++
        intToChars idx ++ toL " is out of range (document has " ++
        natToChars ps.length ++ toL " paragraphs)")⟩) := by
  unfold processCommand
  have hhc : handle_command env st
      { action := toL "delete_paragraph", file_path := path,
        paragraph_index := idx } = delete_paragraph st path idx := rfl
  rw [hhc, delete_paragraph_oor st path ps idx h hidx]

/-- C3 witness: deleting paragraph 5 of a two-paragraph document answers the
error envelope and leaves the state unchanged. -/
theorem c3_delete_paragraph_oor_error_unchanged_witness :
    (fsGet ([(toL "/d.odt", Document.text [toL "a", toL "b"])] : Fs)
        (toL "/d.odt") = some (.text [toL "a", toL "b"])) ∧
    ((5 : Int) < 0 ∨ ((2 : Nat) : Int) ≤ 5) ∧
    processCommand ⟨id, fun _ => [], fun _ => false, false, fun _ => none⟩
        ⟨[(toL "/d.odt", Document.text [toL "a", toL "b"])], 0⟩
        { action := toL "delete_paragraph", file_path := toL "/d.odt",
          paragraph_index := 5 } =
      (⟨[(toL "/d.odt", Document.text [toL "a", toL "b"])], 0⟩,
        ⟨toL "error", toL "Error: " ++ (toL "Paragraph index " ++
          intToChars 5 ++ toL " is out of range (document has " ++
          natToChars 2 ++ toL " paragraphs)")⟩) := by
  refine ⟨by decide, by norm_num, ?_⟩
  exact c3_delete_paragraph_oor_error_unchanged _ _ _ [toL "a", toL "b"] 5
    (by decide) (by norm_num)

/-! ### C7: managed_document closes the handle on every exit path -/

/-- C7: every operation running through the scoped-acquisition wrapper
`managed_document` leaves the count of open document handles unchanged: when
opening fails (validation failure) the state is returned untouched together
with the raised error, and whether the body returns or raises, the handle
opened by the wrapper is closed by the `finally` block. -/
theorem c7_managed_document_balanced (st : Host) (path : Str) (ro : Bool)
    (body : Document → Host → Host × Except Str Str)
    (hbody : ∀ doc s, ((body doc s).1).openDocs = s.openDocs) :
    ((managed_document st path ro body).1).openDocs = st.openDocs ∧
    (∀ e, open_document st.fs path = .error e →
      managed_document st path ro body = (st, .error e)) := by
  constructor
  · unfold managed_document
    cases hod : open_document st.fs path with
    | error e => rfl
    | ok doc =>
      simp only []
      rw [hbody]
      show st.openDocs + 1 - 1 = st.openDocs
      omega
  · intro e he
    unfold managed_document
    rw [he]

/-- C7 witness: a missing file leaves the handle count at 3 and reports the
open failure; a successful body also leaves the count at 3. -/
theorem c7_managed_document_balanced_witness :
    (((managed_document ⟨[], 3⟩ (toL "/gone.odt") false
        (fun _ s => (s, Except.ok []))).1).openDocs = 3 ∧
      (∀ e, open_document ([] : Fs) (toL "/gone.odt") = .error e →
        managed_document ⟨[], 3⟩ (toL "/gone.odt") false
          (fun _ s => (s, Except.ok [])) = (⟨[], 3⟩, .error e))) ∧
    ((managed_document ⟨[(toL "/d.odt", Document.text [])], 3⟩ (toL "/d.odt")
        false (fun _ s => (s, Except.ok []))).1).openDocs = 3 := by
  refine ⟨?_, ?_⟩
  · exact c7_managed_document_balanced ⟨[], 3⟩ (toL "/gone.odt") false
      (fun _ s => (s, Except.ok [])) (fun _ _ => rfl)
  · exact (c7_managed_document_balanced ⟨[(toL "/d.odt", Document.text [])], 3⟩
      (toL "/d.odt") false (fun _ s => (s, Except.ok []))
      (fun _ _ => rfl)).1

/-! ### C8: ping -/

/-- C8: every well-formed request decoding to the JSON object with the
single member `action: "ping"` is answered by exactly the envelope with
status `success` and message `LibreOffice helper is running`, with the host
state untouched. -/
theorem c8_ping_envelope (env : HostEnv) (st : Host) (data : Str)
    (h : json_loads data =
      some (.obj (.cons (toL "action") (.str (toL "ping")) .nil))) :
    processData env st data =
      some (st, ⟨toL "success", toL "LibreOffice helper is running"⟩) := by
  have hne : data ≠ [] := by
    intro he
    subst he
    exact Option.noConfusion h
  unfold processData
  rw [if_neg hne, h]
  rfl

/-- C8 witness: the concrete request text of the ping command parses to the
ping object and gets the running confirmation. -/
theorem c8_ping_envelope_witness :
    (json_loads ['\x7b', '"', 'a', 'c', 't', 'i', 'o', 'n', '"', ':', ' ',
        '"', 'p', 'i', 'n', 'g', '"', '\x7d'] =
      some (.obj (.cons (toL "action") (.str (toL "ping")) .nil))) ∧
    processData ⟨id, fun _ => [], fun _ => false, false, fun _ => none⟩ ⟨[], 0⟩
        ['\x7b', '"', 'a', 'c', 't', 'i', 'o', 'n', '"', ':', ' ',
          '"', 'p', 'i', 'n', 'g', '"', '\x7d'] =
      some (⟨[], 0⟩, ⟨toL "success", toL "LibreOffice helper is running"⟩) := by
  refine ⟨by rfl, ?_⟩
  exact c8_ping_envelope _ _ _ (by rfl)

/-! ### C4: oversized requests are rejected as invalid JSON -/

/-- C4: the receive call reads at most 16384 bytes, so a request whose JSON
body is longer arrives truncated; the strict prefix of a serialized JSON
object never parses, and the loop answers the envelope with status `error`
and message `Invalid JSON received` — it does not silently misparse and
execute a different command (the host state is untouched). -/
theorem c4_truncated_request_invalid_json (env : HostEnv) (st : Host)
    (ms : JsonMembers) (h : 16384 < (serJson (.obj ms)).length) :
    processData env st ((serJson (.obj ms)).take 16384) =
      some (st, ⟨toL "error", toL "Invalid JSON received"⟩) := by
  have hsplit : serJson (.obj ms) =
      (serJson (.obj ms)).take 16384 ++ (serJson (.obj ms)).drop 16384 :=
    (List.take_append_drop _ _).symm
  have hq : (serJson (.obj ms)).drop 16384 ≠ [] := by
    intro he
    have hle : ((serJson (.obj ms)).drop 16384).length = 0 := by rw [he]; rfl
    rw [List.length_drop] at hle
    omega
  have hp : (serJson (.obj ms)).take 16384 ≠ [] := by
    intro he
    have hle : ((serJson (.obj ms)).take 16384).length = 0 := by rw [he]; rfl
    rw [List.length_take] at hle
    omega
  have hl := json_loads_strictPref_obj ms _ _ hsplit hq hp
  unfold processData
  rw [if_neg hp, hl]

theorem escStr_replicate_a (n : Nat) :
    (escStr (List.replicate n 'a')).length = n := by
  induction n with
  | zero => rfl
  | succ n ih =>
    rw [List.replicate_succ, escStr]
    have h1 : escChar 'a' = ['a'] := by decide
    rw [h1, List.length_append, ih]
    simp [Nat.add_comm]

/-- C4 witness: a single-member object whose string value holds 20000
characters serializes to more than 16384 characters, and its truncation is
answered by the invalid-JSON error envelope. -/
theorem c4_truncated_request_invalid_json_witness :
    16384 < (serJson (Json.obj (JsonMembers.cons (toL "action")
      (Json.str (List.replicate 20000 'a')) .nil))).length ∧
    processData ⟨id, fun _ => [], fun _ => false, false, fun _ => none⟩ ⟨[], 0⟩
        ((serJson (Json.obj (JsonMembers.cons (toL "action")
          (Json.str (List.replicate 20000 'a')) .nil))).take 16384) =
      some (⟨[], 0⟩, ⟨toL "error", toL "Invalid JSON received"⟩) := by
  have hlen : 16384 < (serJson (Json.obj (JsonMembers.cons (toL "action")
      (Json.str (List.replicate 20000 'a')) .nil))).length := by
    have ha : (escStr (toL "action")).length = 6 := by rfl
    have e1 : serJson (Json.str (List.replicate 20000 'a')) =
        '"' :: (escStr (List.replicate 20000 'a') ++ ['"']) := by
      simp only [serJson]
    have e2 : serObj (JsonMembers.cons (toL "action")
        (Json.str (List.replicate 20000 'a')) .nil) =
        '"' :: (escStr (toL "action") ++ ('"' :: ':' :: ' ' ::
          serJson (Json.str (List.replicate 20000 'a')))) := by
      simp only [serObj]
    have e3 : serJson (Json.obj (JsonMembers.cons (toL "action")
        (Json.str (List.replicate 20000 'a')) .nil)) =
        '\x7b' :: (serObj (JsonMembers.cons (toL "action")
          (Json.str (List.replicate 20000 'a')) .nil) ++ ['\x7d']) := by
      simp only [serJson]
    rw [e3, e2, e1]
    simp only [List.length_cons, List.length_append, escStr_replicate_a, ha]
    omega
  exact ⟨hlen, c4_truncated_request_invalid_json _ _ _ hlen⟩

/-! ### Text lemmas for C6 -/

theorem splitNl_ne_nil (t : Str) : splitNl t ≠ [] := by
  cases t with
  | nil => simp [splitNl]
  | cons c cs =>
    rw [splitNl]
    split
    · simp
    · split <;> simp

theorem textOf_splitNl (t : Str) : textOf (splitNl t) = t := by
  induction t with
  | nil => rfl
  | cons c cs ih =>
    rw [splitNl]
    split
    · next hc =>
      subst hc
      cases hsp : splitNl cs with
      | nil => exact absurd hsp (splitNl_ne_nil cs)
      | cons l ls =>
        rw [hsp] at ih
        rw [textOf, ← ih]
        rfl
    · next hc =>
      cases hsp : splitNl cs with
      | nil => exact absurd hsp (splitNl_ne_nil cs)
      | cons l ls =>
        rw [hsp] at ih
        show textOf ((c :: l) :: ls) = c :: cs
        cases ls with
        | nil =>
          rw [textOf] at ih ⊢
          rw [ih]
        | cons l2 ls2 =>
          rw [textOf] at ih ⊢
          rw [← ih]
          rfl

theorem insertEnd_ne_nil : ∀ (ps : List Str) (t : Str), insertEnd ps t ≠ [] := by
  intro ps t
  match ps with
  | [] => rw [insertEnd]; exact splitNl_ne_nil t
  | [p] =>
    rw [insertEnd]
    cases hsp : splitNl t <;> simp
  | p :: q :: tl => rw [insertEnd]; simp

theorem textOf_insertEnd :
    ∀ (ps : List Str) (t : Str), textOf (insertEnd ps t) = textOf ps ++ t
  | [], t => by
    rw [insertEnd, textOf_splitNl]
    rfl
  | [p], t => by
    rw [insertEnd]
    cases hsp : splitNl t with
    | nil => exact absurd hsp (splitNl_ne_nil t)
    | cons l ls =>
      have ht : textOf (l :: ls) = t := by rw [← textOf_splitNl t, hsp]
      cases ls with
      | nil =>
        rw [textOf] at ht
        subst ht
        rw [textOf, textOf]
      | cons l2 ls2 =>
        rw [textOf, ← ht, textOf, textOf]
        simp [List.append_assoc]
  | p :: q :: tl, t => by
    rw [insertEnd]
    cases hie : insertEnd (q :: tl) t with
    | nil => exact absurd hie (insertEnd_ne_nil _ t)
    | cons x xs =>
      have hrec := textOf_insertEnd (q :: tl) t
      rw [hie] at hrec
      rw [textOf, hrec, textOf]
      simp [List.append_assoc]

/-! ### C6: add_text at the end appends, twice appends twice -/

theorem add_text_end_eq (st : Host) (path t : Str) (ps : List Str)
    (h : fsGet st.fs path = some (.text ps)) :
    add_text st path t (toL "end") =
      ({ fs := fsSet st.fs path (.text (insertEnd ps t)),
         openDocs := st.openDocs }, .ok (toL "Text added to " ++ path)) := by
  unfold add_text managed_document open_document
  rw [h]
  simp only []
  rw [if_neg (by decide), if_neg (by decide)]
  refine Prod.ext_iff.mpr ⟨?_, rfl⟩
  simp

theorem extract_text_eq (st : Host) (path : Str) (ps : List Str)
    (h : fsGet st.fs path = some (.text ps)) :
    extract_text st path = (st, .ok (textOf ps)) := by
  unfold extract_text managed_document open_document
  rw [h]
  exact Prod.ext_iff.mpr ⟨host_eta st, rfl⟩

/-- C6: on a text document, `add_text` with position `end` succeeds and a
following read of the document yields text ending in the added string;
calling it twice appends the string twice (the text then ends in the
doubled string), and for a nonempty string the second call changes the
state again — the operation is not idempotent. -/
theorem c6_add_text_end_appends (st : Host) (path t : Str) (ps : List Str)
    (h : fsGet st.fs path = some (.text ps)) :
    (add_text st path t (toL "end")).2 = .ok (toL "Text added to " ++ path) ∧
    (∃ s1, (extract_text (add_text st path t (toL "end")).1 path).2 = .ok s1 ∧
      t <:+ s1) ∧
    (∃ s2, (extract_text (add_text (add_text st path t (toL "end")).1 path t
      (toL "end")).1 path).2 = .ok s2 ∧ (t ++ t) <:+ s2) ∧
    (t ≠ [] →
      (add_text (add_text st path t (toL "end")).1 path t (toL "end")).1 ≠
        (add_text st path t (toL "end")).1) := by
  have h1 := add_text_end_eq st path t ps h
  have hfs1 : fsGet ((add_text st path t (toL "end")).1).fs path =
      some (.text (insertEnd ps t)) := by
    rw [h1]
    exact fsGet_fsSet _ _ _
  have h2 := add_text_end_eq _ path t (insertEnd ps t) hfs1
  have hfs2 : fsGet ((add_text (add_text st path t (toL "end")).1 path t
      (toL "end")).1).fs path = some (.text (insertEnd (insertEnd ps t) t)) := by
    rw [h2]
    exact fsGet_fsSet _ _ _
  refine ⟨by rw [h1], ?_, ?_, ?_⟩
  · refine ⟨textOf (insertEnd ps t), ?_, ?_⟩
    · rw [extract_text_eq _ path _ hfs1]
    · exact ⟨textOf ps, (textOf_insertEnd ps t).symm⟩
  · refine ⟨textOf (insertEnd (insertEnd ps t) t), ?_, ?_⟩
    · rw [extract_text_eq _ path _ hfs2]
    · refine ⟨textOf ps, ?_⟩
      rw [textOf_insertEnd, textOf_insertEnd, List.append_assoc]
  · intro ht hcontra
    have hdocs : some (Document.text (insertEnd (insertEnd ps t) t)) =
        some (Document.text (insertEnd ps t)) := by
      rw [← hfs2, ← hfs1, hcontra]
    have hdoc : insertEnd (insertEnd ps t) t = insertEnd ps t := by
      injection hdocs with hd
      injection hd
    have hlen : (textOf (insertEnd (insertEnd ps t) t)).length =
        (textOf (insertEnd ps t)).length := by rw [hdoc]
    simp only [textOf_insertEnd, List.length_append] at hlen
    have : 0 < t.length := List.length_pos.mpr ht
    omega

/-- C6 witness: appending `X` to a one-paragraph document. -/
theorem c6_add_text_end_appends_witness :
    (fsGet ([(toL "/d.odt", Document.text [toL "ab"])] : Fs) (toL "/d.odt") =
      some (.text [toL "ab"])) ∧
    ((add_text ⟨[(toL "/d.odt", Document.text [toL "ab"])], 0⟩ (toL "/d.odt")
        (toL "X") (toL "end")).2 = .ok (toL "Text added to " ++ toL "/d.odt") ∧
      (∃ s1, (extract_text (add_text ⟨[(toL "/d.odt", Document.text [toL "ab"])], 0⟩
          (toL "/d.odt") (toL "X") (toL "end")).1 (toL "/d.odt")).2 = .ok s1 ∧
        toL "X" <:+ s1) ∧
      (∃ s2, (extract_text (add_text (add_text
          ⟨[(toL "/d.odt", Document.text [toL "ab"])], 0⟩ (toL "/d.odt")
          (toL "X") (toL "end")).1 (toL "/d.odt") (toL "X") (toL "end")).1
          (toL "/d.odt")).2 = .ok s2 ∧ (toL "X" ++ toL "X") <:+ s2) ∧
      (toL "X" ≠ [] →
        (add_text (add_text ⟨[(toL "/d.odt", Document.text [toL "ab"])], 0⟩
          (toL "/d.odt") (toL "X") (toL "end")).1 (toL "/d.odt") (toL "X")
          (toL "end")).1 ≠
          (add_text ⟨[(toL "/d.odt", Document.text [toL "ab"])], 0⟩
            (toL "/d.odt") (toL "X") (toL "end")).1)) := by
  refine ⟨by decide, ?_⟩
  exact c6_add_text_end_appends _ _ _ [toL "ab"] (by decide)

/-! ### C10: delete_text delegates to search_replace_text -/

/-- C10: `delete_text` is behaviorally identical to `search_replace_text`
with an empty replacement — the very same state transition and result; in
particular, when the text does not occur in the document both raise the
`Text not found` error leaving the host unchanged, and on success both
return the same replacement-count message. -/
theorem c10_delete_text_refines_replace :
    (∀ (st : Host) (path t : Str),
      delete_text st path t = search_replace_text st path t []) ∧
    (∀ (st : Host) (path t : Str) (ps : List Str),
      fsGet st.fs path = some (.text ps) →
      containsSub (textOf ps) t = false →
      delete_text st path t =
        (st, .error (toL "Text \x27" ++ t ++ toL "\x27 not found in document"))) ∧
    (∀ (st : Host) (path t : Str) (ps : List Str),
      fsGet st.fs path = some (.text ps) →
      containsSub (textOf ps) t = true →
      (delete_text st path t).2 =
        .ok (toL "Replaced " ++ natToChars (replaceAllCI t [] (textOf ps)).1 ++
          toL " occurrences of \x27" ++ t ++ toL "\x27 with \x27" ++
          ([] : Str) ++ toL "\x27 in " ++ path)) := by
  refine ⟨fun st path t => rfl, ?_, ?_⟩
  · intro st path t ps h hfalse
    unfold delete_text search_replace_text managed_document open_document
    rw [h]
    simp only []
    rw [if_neg (by simp [hfalse])]
    exact Prod.ext_iff.mpr ⟨host_eta st, rfl⟩
  · intro st path t ps h htrue
    unfold delete_text search_replace_text managed_document open_document
    rw [h]
    simp only []
    rw [if_pos htrue]

/-- C10 witness: on a document holding `abc`, deleting absent text raises the
not-found error and deleting `a` reports one replacement, identically to the
empty-replacement search. -/
theorem c10_delete_text_refines_replace_witness :
    (delete_text ⟨[(toL "/d.odt", Document.text [toL "abc"])], 0⟩ (toL "/d.odt")
        (toL "zz") =
      search_replace_text ⟨[(toL "/d.odt", Document.text [toL "abc"])], 0⟩
        (toL "/d.odt") (toL "zz") []) ∧
    (fsGet ([(toL "/d.odt", Document.text [toL "abc"])] : Fs) (toL "/d.odt") =
      some (.text [toL "abc"])) ∧
    containsSub (textOf [toL "abc"]) (toL "zz") = false ∧
    delete_text ⟨[(toL "/d.odt", Document.text [toL "abc"])], 0⟩ (toL "/d.odt")
        (toL "zz") =
      (⟨[(toL "/d.odt", Document.text [toL "abc"])], 0⟩,
        .error (toL "Text \x27" ++ toL "zz" ++ toL "\x27 not found in document")) ∧
    containsSub (textOf [toL "abc"]) (toL "a") = true ∧
    (delete_text ⟨[(toL "/d.odt", Document.text [toL "abc"])], 0⟩ (toL "/d.odt")
        (toL "a")).2 =
      .ok (toL "Replaced " ++ natToChars (replaceAllCI (toL "a") []
          (textOf [toL "abc"])).1 ++
        toL " occurrences of \x27" ++ toL "a" ++ toL "\x27 with \x27" ++
        ([] : Str) ++ toL "\x27 in " ++ toL "/d.odt") := by
  refine ⟨c10_delete_text_refines_replace.1 _ _ _, by decide, by decide, ?_, by decide, ?_⟩
  · exact c10_delete_text_refines_replace.2.1 _ _ _ [toL "abc"] (by decide) (by decide)
  · exact c10_delete_text_refines_replace.2.2 _ _ _ [toL "abc"] (by decide) (by decide)

/-! ### C5: list_documents enumerates exactly the supported files, sorted -/

theorem lexLe_total : ∀ a b : Str, lexLe a b = true ∨ lexLe b a = true := by
  intro a
  induction a with
  | nil => intro b; left; rfl
  | cons x xs ih =>
    intro b
    cases b with
    | nil => right; rfl
    | cons y ys =>
      rcases lt_trichotomy x y with hlt | heq | hgt
      · left; rw [lexLe, if_pos hlt]
      · subst heq
        rcases ih ys with h | h
        · left; rw [lexLe, if_neg (lt_irrefl x), if_pos rfl]; exact h
        · right; rw [lexLe, if_neg (lt_irrefl x), if_pos rfl]; exact h
      · right; rw [lexLe, if_pos hgt]

theorem lexLe_trans :
    ∀ a b c : Str, lexLe a b = true → lexLe b c = true → lexLe a c = true := by
  intro a
  induction a with
  | nil => intro b c _ _; rfl
  | cons x xs ih =>
    intro b c hab hbc
    cases b with
    | nil => simp [lexLe] at hab
    | cons y ys =>
      cases c with
      | nil => simp [lexLe] at hbc
      | cons z zs =>
        rw [lexLe] at hab hbc ⊢
        by_cases h1 : x < y
        · by_cases h3 : y < z
          · rw [if_pos (lt_trans h1 h3)]
          · by_cases h4 : y = z
            · subst h4; rw [if_pos h1]
            · rw [if_neg h3, if_neg h4] at hbc; exact absurd hbc (by decide)
        · by_cases h2 : x = y
          · subst h2
            rw [if_neg h1, if_pos rfl] at hab
            by_cases h3 : x < z
            · rw [if_pos h3]
            · by_cases h4 : x = z
              · subst h4
                rw [if_neg h3, if_pos rfl] at hbc ⊢
                exact ih ys zs hab hbc
              · rw [if_neg h3, if_neg h4] at hbc; exact absurd hbc (by decide)
          · rw [if_neg h1, if_neg h2] at hab; exact absurd hab (by decide)

theorem listDocs_names (dirPath : Str) (entries : List DirEntry) :
    ((entries.filterMap fun e =>
        if e.isFile && decide (lowerStr (extOf e.name) ∈ extensions) then
          some { name := e.name, path := pathJoin dirPath e.name, size := e.size,
                 modified := e.modified,
                 docType := docTypeOf (lowerStr (extOf e.name)),
                 extension := (lowerStr (extOf e.name)).drop 1 }
        else (none : Option DocRecord)).map DocRecord.name) =
      ((entries.filter fun e =>
        e.isFile && decide (lowerStr (extOf e.name) ∈ extensions)).map
        DirEntry.name) := by
  induction entries with
  | nil => rfl
  | cons e t ih =>
    rw [List.filterMap_cons, List.filter_cons]
    by_cases hc : (e.isFile && decide (lowerStr (extOf e.name) ∈ extensions)) = true
    · rw [if_pos hc, if_pos hc]
      simp only [List.map_cons]
      rw [ih]
    · rw [if_neg hc, if_neg hc]
      exact ih

/-- C5: for an existing directory, `list_documents` leaves the host state
untouched and its record list enumerates exactly the regular files whose
extension, lowered, lies in the supported-extension set (which contains
`.odt`, `.docx` and `.pdf`; the match is case-insensitive, as the lowering
of `A.DocX` shows), as a permutation of the filtered directory — so every
file with an unsupported extension is omitted — sorted by file name. -/
theorem c5_list_documents_exact_sorted (env : HostEnv) (st : Host)
    (dir : Str) (entries : List DirEntry) (h : env.dirs dir = some entries) :
    (list_documents env st dir).1 = st ∧
    ((listDocsRecords dir entries).map DocRecord.name).Perm
      ((entries.filter fun e =>
        e.isFile && decide (lowerStr (extOf e.name) ∈ extensions)).map
        DirEntry.name) ∧
    (listDocsRecords dir entries).Pairwise
      (fun a b => lexLe a.name b.name = true) ∧
    toL ".odt" ∈ extensions ∧ toL ".docx" ∈ extensions ∧
    toL ".pdf" ∈ extensions ∧ lowerStr (extOf (toL "A.DocX")) = toL ".docx" := by
  refine ⟨?_, ?_, ?_, by decide, by decide, by decide, by decide⟩
  · unfold list_documents
    rw [h]
    simp only []
    split <;> rfl
  · have hperm := (List.mergeSort_perm (entries.filterMap fun e =>
      if e.isFile && decide (lowerStr (extOf e.name) ∈ extensions) then
        some { name := e.name, path := pathJoin dir e.name, size := e.size,
               modified := e.modified,
               docType := docTypeOf (lowerStr (extOf e.name)),
               extension := (lowerStr (extOf e.name)).drop 1 }
      else (none : Option DocRecord)) (fun a b => lexLe a.name b.name)).map
      DocRecord.name
    rw [listDocs_names] at hperm
    exact hperm
  · exact List.sorted_mergeSort
      (fun a b c hab hbc => lexLe_trans a.name b.name c.name hab hbc)
      (fun a b => by
        rcases lexLe_total a.name b.name with hh | hh <;> simp [hh]) _

def entriesSample : List DirEntry :=
  [⟨toL "b.odt", true, 2048, toL "2024-01-01 00:00:00"⟩,
   ⟨toL "a.DOCX", true, 10, toL "2024-01-01 00:00:00"⟩,
   ⟨toL "c.pdf", true, 99, toL "2024-01-01 00:00:00"⟩,
   ⟨toL "d.xyz", true, 5, toL "2024-01-01 00:00:00"⟩,
   ⟨toL "sub.odt", false, 0, toL "2024-01-01 00:00:00"⟩]

def envDirsSample : HostEnv :=
  ⟨id, fun _ => [], fun _ => false, false,
    fun d => if d = toL "/docs" then some entriesSample else none⟩

/-- C5 witness: a directory holding `b.odt`, `a.DOCX`, `c.pdf`, the
unsupported `d.xyz` and a subdirectory. -/
theorem c5_list_documents_exact_sorted_witness :
    (envDirsSample.dirs (toL "/docs") = some entriesSample) ∧
    ((list_documents envDirsSample ⟨[], 0⟩ (toL "/docs")).1 = (⟨[], 0⟩ : Host) ∧
      ((listDocsRecords (toL "/docs") entriesSample).map DocRecord.name).Perm
        ((entriesSample.filter fun e =>
          e.isFile && decide (lowerStr (extOf e.name) ∈ extensions)).map
          DirEntry.name) ∧
      (listDocsRecords (toL "/docs") entriesSample).Pairwise
        (fun a b => lexLe a.name b.name = true) ∧
      toL ".odt" ∈ extensions ∧ toL ".docx" ∈ extensions ∧
      toL ".pdf" ∈ extensions ∧ lowerStr (extOf (toL "A.DocX")) = toL ".docx") := by
  refine ⟨by decide, ?_⟩
  exact c5_list_documents_exact_sorted envDirsSample ⟨[], 0⟩ (toL "/docs")
    entriesSample (by decide)

deriving instance DecidableEq for Except

/-! ### C9: delete_slide preserves a nonempty presentation (corrected) -/

theorem gvs_oor (n : Nat) (idx : Int) (d : Bool)
    (h : idx < 0 ∨ (n : Int) ≤ idx) :
    get_validated_slide n idx d =
      .error (toL "Slide index " ++ intToChars idx ++ toL " is out of range") := by
  unfold get_validated_slide
  rw [if_pos h]

theorem gvs_only_slide (idx : Int) (h : ¬(idx < 0 ∨ (1 : Int) ≤ idx)) :
    get_validated_slide 1 idx true =
      .error (toL "Cannot delete the only slide in the presentation") := by
  unfold get_validated_slide
  simp only [Nat.cast_one]
  rw [if_neg h, if_pos (by decide)]

theorem gvs_ok (n : Nat) (idx : Int) (hn : n ≠ 1)
    (h : ¬(idx < 0 ∨ (n : Int) ≤ idx)) :
    get_validated_slide n idx true = .ok idx.toNat := by
  unfold get_validated_slide
  rw [if_neg h, if_neg (by simp [hn])]

theorem gvs_ok_noDelete (n : Nat) (idx : Int)
    (h : ¬(idx < 0 ∨ (n : Int) ≤ idx)) :
    get_validated_slide n idx false = .ok idx.toNat := by
  unfold get_validated_slide
  rw [if_neg h, if_neg (by simp)]

/-- C9 counterexample: on a presentation with exactly one slide,
`delete_slide` with index 1 raises the out-of-range error, not the claimed
`Cannot delete the only slide in the presentation` message — the index-range
check of `get_validated_slide` fires first. -/
theorem c9_delete_slide_counterexample :
    (fsGet ([(toL "/p.odp", Document.pres [⟨toL "t", toL "c"⟩])] : Fs)
        (toL "/p.odp") = some (.pres [⟨toL "t", toL "c"⟩])) ∧
    delete_slide ⟨[(toL "/p.odp", Document.pres [⟨toL "t", toL "c"⟩])], 0⟩
        (toL "/p.odp") 1 =
      (⟨[(toL "/p.odp", Document.pres [⟨toL "t", toL "c"⟩])], 0⟩,
        .error (toL "Slide index " ++ intToChars 1 ++ toL " is out of range")) ∧
    (toL "Slide index " ++ intToChars 1 ++ toL " is out of range") ≠
      toL "Cannot delete the only slide in the presentation" := by
  decide

/-- C9 amended: `delete_slide` preserves the invariant that a presentation
keeps at least one slide.  On a single-slide presentation every request
fails before any mutation — with the `Cannot delete the only slide in the
presentation` error when the index is 0 (the only in-range index), with the
out-of-range error otherwise — so the slide count never drops to zero; on a
presentation with more than one slide and an in-range index exactly one
slide (the one at the index) is removed. -/
theorem c9_delete_slide_amended :
    (∀ (st : Host) (path : Str) (sl : Slide) (idx : Int),
      fsGet st.fs path = some (.pres [sl]) →
      (delete_slide st path idx).1 = st ∧
      ∃ e, (delete_slide st path idx).2 = .error e ∧
        (idx = 0 → e = toL "Cannot delete the only slide in the presentation") ∧
        (idx ≠ 0 →
          e = toL "Slide index " ++ intToChars idx ++ toL " is out of range")) ∧
    (∀ (st : Host) (path : Str) (slides : List Slide) (idx : Int),
      fsGet st.fs path = some (.pres slides) → 1 < slides.length →
      0 ≤ idx → idx < (slides.length : Int) →
      fsGet ((delete_slide st path idx).1).fs path =
        some (.pres (slides.eraseIdx idx.toNat)) ∧
      (slides.eraseIdx idx.toNat).length = slides.length - 1 ∧
      ∃ m, (delete_slide st path idx).2 = .ok m) := by
  constructor
  · intro st path sl idx h
    unfold delete_slide managed_document open_document
    rw [h]
    simp only [List.length_singleton]
    by_cases hidx : idx < 0 ∨ (1 : Int) ≤ idx
    · rw [gvs_oor 1 idx true (by simpa using hidx)]
      refine ⟨host_eta st, _, rfl, fun h0 => absurd hidx ?_, fun _ => rfl⟩
      subst h0
      push_neg
      exact ⟨by norm_num, by norm_num⟩
    · rw [gvs_only_slide idx (by simpa using hidx)]
      refine ⟨host_eta st, _, rfl, fun _ => rfl, fun hne => absurd ?_ hne⟩
      push_neg at hidx
      omega
  · intro st path slides idx h hlen hge hlt
    have hidx : ¬(idx < 0 ∨ (slides.length : Int) ≤ idx) := by
      push_neg
      exact ⟨by omega, by omega⟩
    have htn : idx.toNat < slides.length := by omega
    have herase : (slides.eraseIdx idx.toNat).length = slides.length - 1 := by
      have := List.length_eraseIdx_add_one htn
      omega
    unfold delete_slide managed_document open_document
    rw [h]
    simp only []
    rw [gvs_ok slides.length idx (by omega) hidx]
    simp only []
    rw [if_neg (by omega)]
    refine ⟨?_, herase, _, rfl⟩
    exact fsGet_fsSet _ _ _

/-- C9 witness: a three-slide presentation with index 1 loses exactly one
slide; a one-slide presentation with index 0 raises the only-slide error,
and with index 2 the out-of-range error. -/
theorem c9_delete_slide_amended_witness :
    ((fsGet ([(toL "/p.odp", Document.pres [⟨toL "t", toL "c"⟩])] : Fs)
        (toL "/p.odp") = some (.pres [⟨toL "t", toL "c"⟩])) ∧
      ((delete_slide ⟨[(toL "/p.odp", Document.pres [⟨toL "t", toL "c"⟩])], 0⟩
          (toL "/p.odp") 0).1 =
        (⟨[(toL "/p.odp", Document.pres [⟨toL "t", toL "c"⟩])], 0⟩ : Host) ∧
        ∃ e, (delete_slide ⟨[(toL "/p.odp",
            Document.pres [⟨toL "t", toL "c"⟩])], 0⟩ (toL "/p.odp") 0).2 =
          .error e ∧
          ((0 : Int) = 0 →
            e = toL "Cannot delete the only slide in the presentation") ∧
          ((0 : Int) ≠ 0 →
            e = toL "Slide index " ++ intToChars 0 ++ toL " is out of range")) ∧
      ((delete_slide ⟨[(toL "/p.odp", Document.pres [⟨toL "t", toL "c"⟩])], 0⟩
          (toL "/p.odp") 2).1 =
        (⟨[(toL "/p.odp", Document.pres [⟨toL "t", toL "c"⟩])], 0⟩ : Host) ∧
        ∃ e, (delete_slide ⟨[(toL "/p.odp",
            Document.pres [⟨toL "t", toL "c"⟩])], 0⟩ (toL "/p.odp") 2).2 =
          .error e ∧
          ((2 : Int) = 0 →
            e = toL "Cannot delete the only slide in the presentation") ∧
          ((2 : Int) ≠ 0 →
            e = toL "Slide index " ++ intToChars 2 ++ toL " is out of range"))) ∧
    ((fsGet ([(toL "/q.odp", Document.pres [⟨toL "a", toL "x"⟩,
        ⟨toL "b", toL "y"⟩, ⟨toL "c", toL "z"⟩])] : Fs) (toL "/q.odp") =
      some (.pres [⟨toL "a", toL "x"⟩, ⟨toL "b", toL "y"⟩, ⟨toL "c", toL "z"⟩])) ∧
      (fsGet ((delete_slide ⟨[(toL "/q.odp", Document.pres [⟨toL "a", toL "x"⟩,
          ⟨toL "b", toL "y"⟩, ⟨toL "c", toL "z"⟩])], 0⟩ (toL "/q.odp") 1).1).fs
          (toL "/q.odp") =
        some (.pres (([⟨toL "a", toL "x"⟩, ⟨toL "b", toL "y"⟩,
          ⟨toL "c", toL "z"⟩] : List Slide).eraseIdx (1 : Int).toNat)) ∧
        (([⟨toL "a", toL "x"⟩, ⟨toL "b", toL "y"⟩,
          ⟨toL "c", toL "z"⟩] : List Slide).eraseIdx (1 : Int).toNat).length =
          ([⟨toL "a", toL "x"⟩, ⟨toL "b", toL "y"⟩,
            ⟨toL "c", toL "z"⟩] : List Slide).length - 1 ∧
        ∃ m, (delete_slide ⟨[(toL "/q.odp", Document.pres [⟨toL "a", toL "x"⟩,
          ⟨toL "b", toL "y"⟩, ⟨toL "c", toL "z"⟩])], 0⟩ (toL "/q.odp") 1).2 =
          .ok m)) := by
  constructor
  · refine ⟨by decide, ?_, ?_⟩
    · exact c9_delete_slide_amended.1 _ _ ⟨toL "t", toL "c"⟩ 0 (by decide)
    · exact c9_delete_slide_amended.1 _ _ ⟨toL "t", toL "c"⟩ 2 (by decide)
  · refine ⟨by decide, ?_⟩
    exact c9_delete_slide_amended.2 _ _
      [⟨toL "a", toL "x"⟩, ⟨toL "b", toL "y"⟩, ⟨toL "c", toL "z"⟩] 1
      (by decide) (by norm_num) (by norm_num) (by norm_num)

/-! ### C2: post-write verification behaviour (corrected) -/

def envMangle : HostEnv :=
  ⟨fun _ => toL "mangled", fun _ => [], fun _ => false, true, fun _ => none⟩

/-- C2 counterexample: with a host whose `setString` stores a different text
(so the read-back verification fails), `edit_slide_content` does not abort:
it still saves the document — the stored file changes — and returns a
success result whose message merely mentions the verification error. -/
theorem c2_verification_counterexample :
    (envMangle.storeText (toL "hello") ≠ toL "hello") ∧
    (edit_slide_content envMangle
        ⟨[(toL "/p.odp", Document.pres [⟨toL "t", toL "c"⟩])], 0⟩
        (toL "/p.odp") 0 (toL "hello")).2 =
      .ok (toL "Successfully edited content of slide " ++ intToChars 0 ++
        toL " in " ++ toL "/p.odp" ++ toL ". " ++
        toL "Content update failed - verification error") ∧
    (edit_slide_content envMangle
        ⟨[(toL "/p.odp", Document.pres [⟨toL "t", toL "c"⟩])], 0⟩
        (toL "/p.odp") 0 (toL "hello")).1.fs ≠
      [(toL "/p.odp", Document.pres [⟨toL "t", toL "c"⟩])] := by
  decide

/-- C2 amended: only `apply_presentation_template` aborts on a failed
post-write verification — when any copy error is recorded it raises before
`storeToURL`, leaving host state and target file unchanged.  In
`edit_slide_content` and `edit_slide_title` a failed text verification does
not abort: the document is still saved with whatever text the host stored,
and a success result is returned whose message reports the verification
error. -/
theorem c2_verification_amended :
    (∀ (env : HostEnv) (st : Host) (path name : Str) (slides : List Slide),
      env.templateFound = true →
      fsGet st.fs path = some (.pres slides) →
      slides ≠ [] →
      ((List.range slides.length).map fun i =>
        env.copyErrs i ++ (if env.copyCritical i then
          [toL "Critical error processing slide " ++ natToChars i]
        else [])).flatten ≠ [] →
      (apply_presentation_template env st path name).1 = st ∧
      ∃ e, (apply_presentation_template env st path name).2 = .error e) ∧
    (∀ (env : HostEnv) (st : Host) (path c : Str) (slides : List Slide)
      (idx : Int),
      fsGet st.fs path = some (.pres slides) →
      ¬(idx < 0 ∨ (slides.length : Int) ≤ idx) →
      env.storeText c ≠ c →
      (edit_slide_content env st path idx c).2 =
        .ok (toL "Successfully edited content of slide " ++ intToChars idx ++
          toL " in " ++ path ++ toL ". " ++
          toL "Content update failed - verification error") ∧
      (edit_slide_content env st path idx c).1.fs =
        fsSet st.fs path (.pres (slides.set idx.toNat
          { slides.getD idx.toNat ⟨[], []⟩ with content := env.storeText c }))) ∧
    (∀ (env : HostEnv) (st : Host) (path c : Str) (slides : List Slide)
      (idx : Int),
      fsGet st.fs path = some (.pres slides) →
      ¬(idx < 0 ∨ (slides.length : Int) ≤ idx) →
      env.storeText c ≠ c →
      (edit_slide_title env st path idx c).2 =
        .ok (toL "Successfully edited title of slide " ++ intToChars idx ++
          toL " in " ++ path ++ toL ". " ++
          toL "Title update failed - verification error") ∧
      (edit_slide_title env st path idx c).1.fs =
        fsSet st.fs path (.pres (slides.set idx.toNat
          { slides.getD idx.toNat ⟨[], []⟩ with title := env.storeText c }))) := by
  refine ⟨?_, ?_, ?_⟩
  · intro env st path name slides htf hfs hnil hce
    unfold apply_presentation_template managed_document open_document
    simp only [htf, Bool.not_true]
    rw [if_neg (by decide)]
    rw [hfs]
    simp only []
    rw [if_neg (fun h0 => hnil (List.length_eq_zero.mp h0))]
    rw [if_pos hce]
    exact ⟨host_eta st, _, rfl⟩
  · intro env st path c slides idx hfs hidx hne
    unfold edit_slide_content managed_document open_document
    rw [hfs]
    simp only []
    rw [gvs_ok_noDelete slides.length idx hidx]
    simp only []
    rw [if_neg hne]
    exact ⟨rfl, trivial⟩
  · intro env st path c slides idx hfs hidx hne
    unfold edit_slide_title managed_document open_document
    rw [hfs]
    simp only []
    rw [gvs_ok_noDelete slides.length idx hidx]
    simp only []
    rw [if_neg hne]
    exact ⟨rfl, trivial⟩

def envCopyFail : HostEnv :=
  ⟨fun _ => toL "mangled", fun i => [toL "copy failed on slide " ++ natToChars i],
    fun _ => false, true, fun _ => none⟩

/-- C2 witness: under a host that reports one copy error per slide,
applying a template to a one-slide presentation aborts with the state
unchanged; under a host that stores a different text, editing slide content
and title still saves and answers success results naming the verification
error. -/
theorem c2_verification_amended_witness :
    ((envCopyFail.templateFound = true) ∧
      ((apply_presentation_template envCopyFail
          ⟨[(toL "/p.odp", Document.pres [⟨toL "t", toL "c"⟩])], 0⟩
          (toL "/p.odp") (toL "Modern")).1 =
        (⟨[(toL "/p.odp", Document.pres [⟨toL "t", toL "c"⟩])], 0⟩ : Host) ∧
        ∃ e, (apply_presentation_template envCopyFail
          ⟨[(toL "/p.odp", Document.pres [⟨toL "t", toL "c"⟩])], 0⟩
          (toL "/p.odp") (toL "Modern")).2 = .error e)) ∧
    ((edit_slide_content envMangle
        ⟨[(toL "/p.odp", Document.pres [⟨toL "t", toL "c"⟩])], 0⟩
        (toL "/p.odp") 0 (toL "hi")).2 =
      .ok (toL "Successfully edited content of slide " ++ intToChars 0 ++
        toL " in " ++ toL "/p.odp" ++ toL ". " ++
        toL "Content update failed - verification error") ∧
      (edit_slide_content envMangle
        ⟨[(toL "/p.odp", Document.pres [⟨toL "t", toL "c"⟩])], 0⟩
        (toL "/p.odp") 0 (toL "hi")).1.fs =
      fsSet [(toL "/p.odp", Document.pres [⟨toL "t", toL "c"⟩])] (toL "/p.odp")
        (.pres (([⟨toL "t", toL "c"⟩] : List Slide).set (0 : Int).toNat
          { ([⟨toL "t", toL "c"⟩] : List Slide).getD (0 : Int).toNat ⟨[], []⟩ with
              content := envMangle.storeText (toL "hi") }))) ∧
    ((edit_slide_title envMangle
        ⟨[(toL "/p.odp", Document.pres [⟨toL "t", toL "c"⟩])], 0⟩
        (toL "/p.odp") 0 (toL "hi")).2 =
      .ok (toL "Successfully edited title of slide " ++ intToChars 0 ++
        toL " in " ++ toL "/p.odp" ++ toL ". " ++
        toL "Title update failed - verification error") ∧
      (edit_slide_title envMangle
        ⟨[(toL "/p.odp", Document.pres [⟨toL "t", toL "c"⟩])], 0⟩
        (toL "/p.odp") 0 (toL "hi")).1.fs =
      fsSet [(toL "/p.odp", Document.pres [⟨toL "t", toL "c"⟩])] (toL "/p.odp")
        (.pres (([⟨toL "t", toL "c"⟩] : List Slide).set (0 : Int).toNat
          { ([⟨toL "t", toL "c"⟩] : List Slide).getD (0 : Int).toNat ⟨[], []⟩ with
              title := envMangle.storeText (toL "hi") }))) := by
  refine ⟨⟨rfl, ?_⟩, ?_, ?_⟩
  · exact c2_verification_amended.1 envCopyFail _ _ _ [⟨toL "t", toL "c"⟩] rfl
      (by decide) (by decide) (by decide)
  · exact c2_verification_amended.2.1 envMangle _ _ _ [⟨toL "t", toL "c"⟩] 0
      (by decide) (by norm_num) (by decide)
  · exact c2_verification_amended.2.2 envMangle _ _ _ [⟨toL "t", toL "c"⟩] 0
      (by decide) (by norm_num) (by decide)
